import Mathlib

/-!
# Integration client and server: validation pipeline and request framing

A shallow embedding of `intserver.c` and `intclient.c`.

* C strings are `List Char` (the bytes before the terminating NUL).
* `int` is `Int` restricted to the 32-bit range by the scanners that produce it.
* `double` is `Double` below: NaN, the two infinities, and the finite values
  as dyadic numbers `m * 2 ^ e`, produced by round-to-nearest-even.
* A `FILE*` opened for reading is the list of bytes still to be read.
* The C library (`isspace`, `sscanf`, `sprintf`, `fgets`) is modelled after
  ISO C; the helper library of `csse2310a4.h` and the expression compiler
  `te_compile` have no body in the sources and are parameters.
-/

namespace Libc

/-- The function `isspace` of `<ctype.h>` in the C locale. -/
def isspace (c : Char) : Bool :=
  c == ' ' || c == '\t' || c == '\n' || c == '\x0b' || c == '\x0c' || c == '\r'

/-- The function `isdigit` of `<ctype.h>`. -/
def isdigit (c : Char) : Bool :=
  decide ('0' ≤ c) && decide (c ≤ '9')

/-- Value of a decimal digit character. -/
def digitVal (c : Char) : Nat :=
  c.toNat - '0'.toNat

/-- Value of a run of decimal digits, most significant first. -/
def digitsVal (ds : List Char) : Nat :=
  ds.foldl (fun a c => 10 * a + digitVal c) 0

/-- Lower-case form of an ASCII letter, other characters unchanged. -/
def tolower (c : Char) : Char :=
  if decide ('A' ≤ c) && decide (c ≤ 'Z') then Char.ofNat (c.toNat + 32) else c

/-- The function `isxdigit` of `<ctype.h>`. -/
def isxdigit (c : Char) : Bool :=
  isdigit c || (decide ('a' ≤ tolower c) && decide (tolower c ≤ 'f'))

/-- Value of a hexadecimal digit character. -/
def xdigitVal (c : Char) : Nat :=
  if isdigit c then digitVal c else (tolower c).toNat - 'a'.toNat + 10

/-- Value of a run of hexadecimal digits, most significant first. -/
def xdigitsVal (ds : List Char) : Nat :=
  ds.foldl (fun a c => 16 * a + xdigitVal c) 0

/-- The function `isalnum` of `<ctype.h>`, extended with the underscore: the
characters allowed between the parentheses of `nan(...)`. -/
def isnchar (c : Char) : Bool :=
  isdigit c || (decide ('a' ≤ tolower c) && decide (tolower c ≤ 'z')) || c == '_'

def INT_MAX : Int := 2147483647

def INT_MIN : Int := -2147483648

def LONG_MAX : Int := 9223372036854775807

def LONG_MIN : Int := -9223372036854775808

/-- Result of `strtol` on an exact value: out-of-range values are clamped. -/
def clampLong (v : Int) : Int :=
  if v < LONG_MIN then LONG_MIN else if LONG_MAX < v then LONG_MAX else v

/-- Conversion of a `long` to `int`: the low 32 bits, two's complement. -/
def toInt32 (v : Int) : Int :=
  (v + 2147483648) % 4294967296 - 2147483648

/-- Outcome of the conversions of one `sscanf` call on a string.
`eof`: the input ended before the first conversion (the call returns `EOF`,
which is `-1`); `fail`: matching failure (the call returns `0`); `ok v n`: the
conversion stored `v` and `n` characters were consumed (what `%n` stores). -/
inductive Scan (α : Type) where
  | eof : Scan α
  | fail : Scan α
  | ok (v : α) (n : Nat) : Scan α
deriving DecidableEq, Repr

/-- The value an `sscanf` call with one conversion returns. -/
def Scan.ret {α : Type} : Scan α → Int
  | .eof => -1
  | .fail => 0
  | .ok _ _ => 1

/-- The call `sscanf(s, "%d%n", &d, &n)` (and `sscanf(s, "%d", &d)`): white
space is skipped, then an optional sign and a non-empty run of decimal digits
are read; the value is converted as `strtol` does and stored in an `int`. -/
def scan_d (s : List Char) : Scan Int :=
  let ws := (s.takeWhile isspace).length
  match s.dropWhile isspace with
  | [] => .eof
  | c :: t =>
    let neg := c == '-'
    let sign := if c == '-' || c == '+' then 1 else 0
    let body := if c == '-' || c == '+' then t else c :: t
    let ds := body.takeWhile isdigit
    if ds.isEmpty then .fail
    else
      let v : Int := if neg then -(digitsVal ds : Int) else (digitsVal ds : Int)
      .ok (toInt32 (clampLong v)) (ws + sign + ds.length)

/-- The call `sprintf(str, "%d", d)`. -/
def sprintf_d (d : Int) : List Char :=
  if d < 0 then '-' :: Nat.toDigits 10 d.natAbs else Nat.toDigits 10 d.natAbs

/-- The conversion `%s`: white space is skipped, then the characters up to
the next white space are stored. -/
def scan_s (s : List Char) : Scan (List Char) :=
  let ws := (s.takeWhile isspace).length
  match s.dropWhile isspace with
  | [] => .eof
  | c :: t =>
    let w := (c :: t).takeWhile (fun x => !isspace x)
    .ok w (ws + w.length)

/-- The call `sscanf(s, lit "%s", buf)` for a literal `lit` without white
space or `%`: the literal is matched character by character, then `%s`. -/
def scan_lit_s : List Char → List Char → Scan (List Char)
  | [], s =>
    match scan_s s with
    | .ok w n => .ok w n
    | .eof => .eof
    | .fail => .fail
  | _ :: _, [] => .eof
  | c :: lit, d :: s =>
    if c = d then
      match scan_lit_s lit s with
      | .ok w n => .ok w (n + 1)
      | .eof => .eof
      | .fail => .fail
    else .fail

/-- A value of type `double` (IEEE 754 binary64): NaN, an infinity with its
sign, or the finite number `m * 2 ^ e`. The sign of zero is not kept: no
comparison tells `-0.0` from `0.0`. -/
inductive Double where
  | nan : Double
  | inf (neg : Bool) : Double
  | fin (m : Int) (e : Int) : Double
deriving DecidableEq, Repr

/-- The power `2 ^ k` as an integer, for a non-negative `k` (1 otherwise). -/
def pow2 (k : Int) : Int :=
  Int.ofNat (2 ^ k.toNat)

/-- The C comparison `a < b` on doubles: false when either side is NaN. -/
def Double.lt (a b : Double) : Bool :=
  match a, b with
  | .nan, _ => false
  | .inf _, .nan => false
  | .fin _ _, .nan => false
  | .inf x, .inf y => x && !y
  | .inf x, .fin _ _ => x
  | .fin _ _, .inf y => !y
  | .fin m1 e1, .fin m2 e2 =>
    decide (m1 * pow2 (e1 - min e1 e2) < m2 * pow2 (e2 - min e1 e2))

/-- The C comparison `a <= b` on doubles: false when either side is NaN. -/
def Double.le (a b : Double) : Bool :=
  match a, b with
  | .nan, _ => false
  | .inf _, .nan => false
  | .fin _ _, .nan => false
  | .inf x, .inf y => x || !y
  | .inf x, .fin _ _ => x
  | .fin _ _, .inf y => !y
  | .fin m1 e1, .fin m2 e2 =>
    decide (m1 * pow2 (e1 - min e1 e2) ≤ m2 * pow2 (e2 - min e1 e2))

/-- The C comparison `a > b` on doubles. -/
def Double.gt (a b : Double) : Bool :=
  Double.lt b a

/-- Conversion of an `int` to `double` (exact). -/
def Double.ofInt (i : Int) : Double :=
  .fin i 0

def bitLengthAux : Nat → Nat → Nat
  | 0, _ => 0
  | fuel + 1, n => if n = 0 then 0 else bitLengthAux fuel (n / 2) + 1

/-- Number of binary digits of `n` (`0` for `0`). -/
def bitLength (n : Nat) : Nat :=
  bitLengthAux n n

/-- The fraction `num / den` divided by `2 ^ q`, as numerator and denominator. -/
def scale2 (num den : Nat) (q : Int) : Nat × Nat :=
  if 0 ≤ q then (num, den * 2 ^ q.toNat) else (num * 2 ^ (-q).toNat, den)

/-- The binary64 value nearest to `± num / den` (ties to even): 53 bits of
precision, least exponent `-1074`, overflow to infinity from `2 ^ 1024`. -/
def roundBinary64 (neg : Bool) (num den : Nat) : Double :=
  if num = 0 then .fin 0 0
  else
    let q1 : Int := (bitLength num : Int) - (bitLength den : Int) - 52
    let s1 := scale2 num den q1
    let q2 : Int := if s1.1 / s1.2 < 2 ^ 52 then q1 - 1 else q1
    let q : Int := if q2 < -1074 then -1074 else q2
    let s := scale2 num den q
    let m := s.1 / s.2
    let r := s.1 % s.2
    let m1 := if s.2 < 2 * r ∨ (2 * r = s.2 ∧ m % 2 = 1) then m + 1 else m
    if 971 < q ∨ (q = 971 ∧ 2 ^ 53 ≤ m1) then .inf neg
    else .fin (if neg then -(m1 : Int) else (m1 : Int)) q

/-- The double nearest to `± m * base ^ x`. -/
def roundScaled (neg : Bool) (m base : Nat) (x : Int) : Double :=
  if 0 ≤ x then roundBinary64 neg (m * base ^ x.toNat) 1
  else roundBinary64 neg m (base ^ (-x).toNat)

/-- Length of the longest prefix of the input that, letters taken in lower
case, is a prefix of the word `w`. -/
def wordPrefix : List Char → List Char → Nat
  | w :: ws, c :: cs => if tolower c = w then wordPrefix ws cs + 1 else 0
  | _, _ => 0

/-- An optional exponent part introduced by the letter `mark`: `none` when
the letter is there and no digit follows the optional sign (the input item is
then no floating-point number), else the exponent and the characters read. -/
def scanExponent (mark : Char) (s : List Char) : Option (Int × Nat) :=
  match s with
  | [] => some (0, 0)
  | c :: t =>
    if tolower c = mark then
      let sign := match t with
        | [] => 0
        | d :: _ => if d == '-' || d == '+' then 1 else 0
      let eneg := t.head? == some '-'
      let ds := (t.drop sign).takeWhile isdigit
      if ds.isEmpty then none
      else some (if eneg then -(digitsVal ds : Int) else (digitsVal ds : Int), 1 + sign + ds.length)
    else some (0, 0)

/-- A number made of digits (test `isd`, value `val`), an optional point and
an optional exponent in base `ebase` introduced by `mark`; each digit after
the point scales by `2 ^ -shift` (hexadecimal) or `10 ^ -1` (decimal). -/
def scanMantissa (neg : Bool) (isd : Char → Bool) (val : List Char → Nat)
    (mark : Char) (ebase : Nat) (shift : Nat) (s : List Char) : Scan Double :=
  let ip := s.takeWhile isd
  let r1 := s.dropWhile isd
  let dot := r1.head? == some '.'
  let fp := if dot then r1.tail.takeWhile isd else []
  let r2 := if dot then r1.tail.dropWhile isd else r1
  let mlen := ip.length + (if dot then 1 else 0) + fp.length
  if ip.isEmpty && fp.isEmpty then .fail
  else
    match scanExponent mark r2 with
    | none => .fail
    | some (x, xlen) =>
      .ok (roundScaled neg (val (ip ++ fp)) ebase (x - ((shift * fp.length : Nat) : Int)))
        (mlen + xlen)

/-- The subject sequence of `strtod` after the sign, read as the conversion
`%lf` reads it: the input item is the longest prefix of the input that is a
prefix of a floating-point number, an infinity or a NaN, and the conversion
fails when the item is not complete. -/
def scanNumber (neg : Bool) (s : List Char) : Scan Double :=
  match s with
  | [] => .fail
  | c :: t =>
    if tolower c = 'i' then
      let k := wordPrefix "infinity".toList s
      if k = 8 then .ok (.inf neg) 8
      else if k = 3 then .ok (.inf neg) 3
      else .fail
    else if tolower c = 'n' then
      if wordPrefix "nan".toList s = 3 then
        match s.drop 3 with
        | '(' :: u =>
          match u.dropWhile isnchar with
          | ')' :: _ => .ok .nan (3 + 1 + (u.takeWhile isnchar).length + 1)
          | _ => .fail
        | _ => .ok .nan 3
      else .fail
    else if c = '0' ∧ (t.head?.map tolower) = some 'x' then
      match scanMantissa neg isxdigit xdigitsVal 'p' 2 4 t.tail with
      | .ok v n => .ok v (n + 2)
      | .eof => .fail
      | .fail => .fail
    else scanMantissa neg isdigit digitsVal 'e' 10 1 s

/-- The call `sscanf(s, "%lf%n", &d, &n)` (and `sscanf(s, "%lf", &d)`). -/
def scan_lf (s : List Char) : Scan Double :=
  let ws := (s.takeWhile isspace).length
  match s.dropWhile isspace with
  | [] => .eof
  | c :: t =>
    let sign := if c == '-' || c == '+' then 1 else 0
    match scanNumber (c == '-') (if c == '-' || c == '+' then t else c :: t) with
    | .ok v n => .ok v (ws + sign + n)
    | .eof => .fail
    | .fail => .fail

end Libc

open Libc

/-- Modelled from the spec: `split_by_char` is declared in `csse2310a4.h` and
has no body in the sources. The spec says a job record is "a line split into
fields by `,`": the string is cut at every occurrence of the separator, so a
string with `k` separators gives `k + 1` fields (every call passes
`maxFields = 0`, no limit). The result is the array before its `NULL` end. -/
def split_by_char : List Char → Char → List (List Char)
  | [], _ => [[]]
  | c :: s, sep =>
    if c = sep then [] :: split_by_char s sep
    else
      match split_by_char s sep with
      | [] => [[c]]
      | f :: fs => (c :: f) :: fs

/-- The fields of a job: `Fields` of both programs. -/
structure Fields where
  func : List Char
  low : Double
  up : Double
  seg : Int
  thr : Int
deriving DecidableEq, Repr

/-- Values that the code reads from memory it has not written: a local
variable or buffer whose `sscanf` conversion did not take place keeps the
indeterminate value it had. They are parameters of the model. -/
structure Uninit where
  buf : List Char
  d : Double
  i : Int
  n : Int
deriving DecidableEq, Repr

/-- The C operator `%` on `int`: the remainder of the division truncated
towards zero (`none` for a zero divisor and for `INT_MIN % -1`, which are
undefined). -/
def c_rem (a b : Int) : Option Int :=
  if b = 0 then none
  else if a = INT_MIN ∧ b = -1 then none
  else some (Int.tmod a b)

def MAX_LINE : Nat := 1024

/-- Characters `fgets` stores when `room` more fit in the buffer: the line,
what is left of the stream, and whether the end of the stream was hit (the
end-of-file indicator `feof` then reports). -/
def fgetsAux : Nat → List Char → List Char × List Char × Bool
  | 0, s => ([], s, false)
  | _ + 1, [] => ([], [], true)
  | room + 1, c :: s =>
    if c = '\n' then ([c], s, false)
    else ((c :: (fgetsAux room s).1), (fgetsAux room s).2.1, (fgetsAux room s).2.2)

/-- The call `fgets(temp, size, f)` on a stream holding the bytes `f` (none
of them NUL): `none` for the `NULL` returned at the end of the stream. -/
def fgets (size : Nat) (f : List Char) : Option (List Char × List Char × Bool) :=
  match f with
  | [] => none
  | c :: s => some (fgetsAux (size - 1) (c :: s))

/-- The call `sscanf(temp, "%s %d", header, &contLen)`: the `int` stored by
`%d`, when that conversion takes place. -/
def scan_s_d (temp : List Char) : Option Int :=
  match scan_s temp with
  | .ok _ n =>
    match scan_d (temp.drop n) with
    | .ok v _ => some v
    | _ => none
  | _ => none

/-- Local variables of `read_request` and `read_response`. `buffer` is
`none` for `NULL`; the string built by `realloc` and `strcat` is taken to be
the concatenation of the lines read. -/
structure ReadState where
  buffer : Option (List Char)
  lineNum : Nat
  contLen : Int
  body : Bool
  broken : Bool
deriving DecidableEq, Repr

namespace Server

def VALIDATE : Nat := 4

def INTEGRATE : Nat := 5

def NUM_FIELDS : Nat := 5

def NO_BODY : Int := -1

/-- Function `is_empty` of intserver.c: no character of the line is other than white
space. -/
def is_empty (line : List Char) : Bool :=
  line.all isspace

/-- Function `parse_fields` of intserver.c: the return values of `sscanf` are not
looked at, so a field whose conversion fails keeps an indeterminate value. -/
def parse_fields (u : Uninit) (processed : List (List Char)) : Fields :=
  { func := processed.getD 0 []
    low := match scan_lf (processed.getD 1 []) with
      | .ok v _ => v
      | _ => u.d
    up := match scan_lf (processed.getD 2 []) with
      | .ok v _ => v
      | _ => u.d
    seg := match scan_d (processed.getD 3 []) with
      | .ok v _ => v
      | _ => u.i
    thr := match scan_d (processed.getD 4 []) with
      | .ok v _ => v
      | _ => u.i }

/-- Function `valid_func` of intserver.c; `te_compile f` says whether tinyexpr
compiles `f` with the one variable `x` (a non-null expression). -/
def valid_func (te_compile : List Char → Bool) (func : List Char) : Bool :=
  if te_compile func then true else false

/-- Function `check_func` of intserver.c: when the conversion does not take place the
buffer `func` keeps its indeterminate content. -/
def check_func (te_compile : List Char → Bool) (u : Uninit) (address : List Char) : Bool :=
  let func := match scan_lit_s "/validate/".toList address with
    | .ok w _ => w
    | _ => u.buf
  if !valid_func te_compile func then false else true

/-- Function `check_type` of intserver.c: each `sscanf` result is used as a truth
value, so `EOF` (`-1`) counts as true. -/
def check_type (numRead : Int) (method address : List Char) : Nat :=
  if numRead ≤ 0 then 0
  else if method ≠ "GET".toList then 0
  else if (scan_lit_s "/validate/".toList address).ret ≠ 0 then VALIDATE
  else if (scan_lit_s "/integrate/".toList address).ret ≠ 0 then INTEGRATE
  else 0

/-- Body of the first `for` loop over fields 2 and 3 in `check_syntax`:
true when the field passes. `d` and `n` are indeterminate when `sscanf`
returns `EOF`. -/
def float_field_ok (u : Uninit) (f : List Char) : Bool :=
  match scan_lf f with
  | .fail => false
  | .eof => decide (u.n = (f.length : Int)) && !(Double.gt u.d (Double.ofInt INT_MAX))
  | .ok d n => decide (n = f.length) && !(Double.gt d (Double.ofInt INT_MAX))

/-- Body of the second `for` loop over fields 4 and 5 in `check_syntax`. -/
def int_field_ok (u : Uninit) (f : List Char) : Bool :=
  match scan_d f with
  | .fail => false
  | .eof => decide (u.n = (f.length : Int)) && decide (f = sprintf_d u.i)
  | .ok d n => decide (n = f.length) && decide (f = sprintf_d d)

/-- Function `check_syntax` of intserver.c. -/
def check_syntax (u : Uninit) (fields : List (List Char)) (num : Nat) : Bool :=
  if num ≠ NUM_FIELDS then false
  else if (List.range num).any (fun i => is_empty (fields.getD i [])) then false
  else if (List.range' 1 (num - 3)).any (fun i => !float_field_ok u (fields.getD i [])) then false
  else if (List.range' 3 (num - 3)).any (fun i => !int_field_ok u (fields.getD i [])) then false
  else true

/-- Function `check_validity` of intserver.c. The remainder is `none` where C leaves
it undefined; such a value is then not `0`. -/
def check_validity (te_compile : List Char → Bool) (fields : Fields) (_num : Nat) : Bool :=
  if fields.func.any isspace then false
  else if Double.le fields.up fields.low then false
  else if fields.seg ≤ 0 then false
  else if fields.thr ≤ 0 then false
  else if c_rem fields.seg fields.thr ≠ some 0 then false
  else if !valid_func te_compile fields.func then false
  else true

/-- Function `check_integrate` of intserver.c. -/
def check_integrate (te_compile : List Char → Bool) (u : Uninit) (address : List Char) : Bool :=
  let fields := match scan_lit_s "/integrate/".toList address with
    | .ok w _ => w
    | _ => u.buf
  let processed := split_by_char fields '/'
  let j := processed.length
  if !( check_syntax u processed j) then false
  else
    let f := parse_fields u processed
    if !check_validity te_compile f j then false else true

/-- State of the locals when `read_request` starts. -/
def read_init : ReadState :=
  { buffer := none, lineNum := 0, contLen := NO_BODY, body := false, broken := false }

/-- The `while` loop of `read_request`: one unit of fuel per call of `fgets`
(`none` when the fuel runs out). Gives the locals at the end of the loop and
what is left of the stream. -/
def read_request_loop : Nat → ReadState → List Char → Option (ReadState × List Char)
  | 0, _, _ => none
  | fuel + 1, st, f =>
    match fgets MAX_LINE f with
    | none => some (st, f)
    | some (temp, rest, eof) =>
      if eof then some (st, rest)
      else
        let st1 : ReadState :=
          { st with lineNum := st.lineNum + 1, buffer := some (st.buffer.getD [] ++ temp) }
        if st1.lineNum = 2 ∧ temp.head? = some '\n' then some (st1, rest)
        else
          let st2 : ReadState :=
            if st1.lineNum = 2 then { st1 with contLen := (scan_s_d temp).getD st1.contLen }
            else st1
          if 3 ≤ st2.lineNum ∧ (temp.head? = some '\n' ∨ temp.head? = some '\r') then
            if st2.body then some (st2, rest)
            else if st2.contLen = 0 then some (st2, rest)
            else if 0 < st2.contLen then read_request_loop fuel { st2 with body := true } rest
            else if st2.contLen = NO_BODY then some ({ st2 with broken := true }, rest)
            else read_request_loop fuel st2 rest
          else read_request_loop fuel st2 rest

/-- Function `read_request` of intserver.c on the stream `f`: the string returned
(`none` for `NULL`) and what is left of the stream. The outer `none` only
stands for fuel running out, which `f.length + 1` units never do. -/
def read_request (f : List Char) : Option (Option (List Char) × List Char) :=
  match read_request_loop (f.length + 1) read_init f with
  | none => none
  | some (st, rest) => some (if st.broken then none else st.buffer, rest)

/-- What `parse_HTTP_request` (csse2310a4.h, no body in the sources) gives
back: its return value and the method and address it stores. -/
structure HttpRequest where
  numRead : Int
  method : List Char
  address : List Char
deriving DecidableEq, Repr

/-- Arguments of one call of `construct_HTTP_response` (csse2310a4.h). -/
structure Response where
  stat : Nat
  expl : List Char
  headers : Option (List (List Char × List Char))
  body : Option (List Char)
deriving DecidableEq, Repr

/-- What a connection thread does, in order. -/
inductive Event where
  | request (text : List Char) : Event
  | response (r : Response) : Event
  | close : Event
deriving DecidableEq, Repr

/-- Body of the loop of `client_thread` after a request was read: the
response built for it. -/
def respond (te_compile : List Char → Bool) (u : Uninit) (parse : List Char → HttpRequest)
    (request : List Char) : Response :=
  let r := parse request
  let type := check_type r.numRead r.method r.address
  let ok : Bool :=
    if type = VALIDATE then check_func te_compile u r.address
    else if type = INTEGRATE then check_integrate te_compile u r.address
    else false
  if ok then { stat := 200, expl := "OK".toList, headers := none, body := none }
  else { stat := 400, expl := "Bad Request".toList, headers := none, body := none }

/-- The `while` loop of `client_thread` on the bytes `f` the peer sends: one
unit of fuel per request read (`none` when the fuel runs out). The
indeterminate values `u` are taken to be the same in every iteration. -/
def client_thread_loop (te_compile : List Char → Bool) (u : Uninit)
    (parse : List Char → HttpRequest) : Nat → List Char → Option (List Event)
  | 0, _ => none
  | fuel + 1, f =>
    match read_request f with
    | none => none
    | some (none, _) => some [Event.close]
    | some (some request, rest) =>
      match client_thread_loop te_compile u parse fuel rest with
      | none => none
      | some evs =>
        some (Event.request request :: Event.response (respond te_compile u parse request) :: evs)

/-- Function `client_thread` of intserver.c on the bytes `f` the peer sends. -/
def client_thread (te_compile : List Char → Bool) (u : Uninit)
    (parse : List Char → HttpRequest) (f : List Char) : Option (List Event) :=
  client_thread_loop te_compile u parse (f.length + 1) f

end Server

namespace Client

def COMMS : Nat := 3

def MIN_FIELDS : Nat := 5

def NO_BODY : Int := -1

/-- How a call ends: it returns `v`, the process ends through `exit(code)`,
or it reads through a null pointer (`strlen(NULL)`). -/
inductive Outcome (α : Type) where
  | ret (v : α) : Outcome α
  | exit (code : Nat) : Outcome α
  | fault : Outcome α
deriving DecidableEq, Repr

/-- A call's outcome with what it wrote to `stderr` and the requests it wrote
to the connection, each in order. -/
structure Run (α : Type) where
  out : Outcome α
  stderr : List (List Char)
  sent : List (List Char)
deriving DecidableEq, Repr

/-- The other end of the connection and the library that decodes its
replies. `reply req` is the bytes that can be read from the connection once
`req` was written to it. `parse_HTTP_response` (csse2310a4.h, no body in the
sources) gives its return value and the status it leaves in `stat`. -/
structure Peer where
  reply : List Char → List Char
  parse_HTTP_response : List Char → Int × Int

/-- Function `is_comment` of intclient.c. -/
def is_comment (line : List Char) : Bool :=
  line.head? == some '#'

/-- Function `is_empty` of intclient.c. -/
def is_empty (line : List Char) : Bool :=
  line.all isspace

/-- Function `parse_fields` of intclient.c. -/
def parse_fields (u : Uninit) (processed : List (List Char)) : Fields :=
  { func := processed.getD 0 []
    low := match scan_lf (processed.getD 1 []) with
      | .ok v _ => v
      | _ => u.d
    up := match scan_lf (processed.getD 2 []) with
      | .ok v _ => v
      | _ => u.d
    seg := match scan_d (processed.getD 3 []) with
      | .ok v _ => v
      | _ => u.i
    thr := match scan_d (processed.getD 4 []) with
      | .ok v _ => v
      | _ => u.i }

/-- Body of the first `for` loop of `check_syntax` (intclient.c). -/
def float_field_ok (u : Uninit) (f : List Char) : Bool :=
  match scan_lf f with
  | .fail => false
  | .eof => decide (u.n = (f.length : Int)) && !(Double.gt u.d (Double.ofInt INT_MAX))
  | .ok d n => decide (n = f.length) && !(Double.gt d (Double.ofInt INT_MAX))

/-- Body of the second `for` loop of `check_syntax` (intclient.c). -/
def int_field_ok (u : Uninit) (f : List Char) : Bool :=
  match scan_d f with
  | .fail => false
  | .eof => decide (u.n = (f.length : Int)) && decide (f = sprintf_d u.i)
  | .ok d n => decide (n = f.length) && decide (f = sprintf_d d)

/-- Function `check_syntax` of intclient.c. -/
def check_syntax (u : Uninit) (fields : List (List Char)) (num : Nat) : Bool :=
  if num < MIN_FIELDS then false
  else if (List.range num).any (fun i => is_empty (fields.getD i [])) then false
  else if (List.range' 1 (num - 3)).any (fun i => !float_field_ok u (fields.getD i [])) then false
  else if (List.range' 3 (num - 3)).any (fun i => !int_field_ok u (fields.getD i [])) then false
  else true

/-- Function `construct_http_request` of intclient.c: the string is only written when
`headers` is `NULL`; otherwise the fresh buffer is returned as it is. -/
def construct_http_request (u : Uninit) (method address : List Char)
    (headers : Option (List (List Char × List Char))) (_body : Option (List Char)) : List Char :=
  match headers with
  | none => method ++ " ".toList ++ address ++ " HTTP/1.1\r\n\r\n".toList
  | some _ => u.buf

/-- Function `make_validation_request` of intclient.c. -/
def make_validation_request (u : Uninit) (func : List Char) : List Char :=
  construct_http_request u "GET".toList ("/validate/".toList ++ func) none none

def comms_error : List Char :=
  "intclient: communications error\n".toList

/-- The `while` loop of `read_response`: one unit of fuel per call of
`fgets`. Gives `none` when the fuel runs out, else the locals at the end of
the loop, or `none` in their place when the loop ends the process. -/
def read_response_loop : Nat → ReadState → List Char → Option (Option ReadState)
  | 0, _, _ => none
  | fuel + 1, st, f =>
    match fgets MAX_LINE f with
    | none => some (some st)
    | some (temp, rest, _) =>
      let st1 : ReadState :=
        { st with lineNum := st.lineNum + 1, buffer := some (st.buffer.getD [] ++ temp) }
      if st1.lineNum = 2 ∧ temp.head? = some '\n' then some (some st1)
      else
        let st2 : ReadState :=
          if st1.lineNum = 2 then { st1 with contLen := (scan_s_d temp).getD st1.contLen }
          else st1
        if 3 ≤ st2.lineNum ∧ (temp.head? = some '\n' ∨ temp.head? = some '\r') then
          if st2.body then some (some st2)
          else if st2.contLen = 0 then some (some st2)
          else if 0 < st2.contLen then read_response_loop fuel { st2 with body := true } rest
          else if st2.contLen = NO_BODY then some none
          else read_response_loop fuel st2 rest
        else read_response_loop fuel st2 rest

/-- Function `read_response` of intclient.c on the stream `f`: it returns the string
read (`none` for `NULL`) or ends the process with the communications error.
The fuel `f.length + 1` never runs out; `fault` stands in for that case. -/
def read_response (f : List Char) : Run (Option (List Char)) :=
  match read_response_loop (f.length + 1)
      { buffer := none, lineNum := 0, contLen := NO_BODY, body := false, broken := false } f with
  | none => { out := .fault, stderr := [], sent := [] }
  | some none => { out := .exit COMMS, stderr := [comms_error], sent := [] }
  | some (some st) => { out := .ret st.buffer, stderr := [], sent := [] }

/-- The part of `check_func` after `read_response` returned `buffer`. -/
def check_reply (peer : Peer) (buffer : Option (List Char)) : Run Bool :=
  match buffer with
  | none => { out := .fault, stderr := [], sent := [] }
  | some b =>
    let numRead := (peer.parse_HTTP_response b).1
    let stat := (peer.parse_HTTP_response b).2
    if numRead ≠ 0 then
      if stat = 400 then { out := .ret false, stderr := [], sent := [] }
      else if stat = 200 then { out := .ret true, stderr := [], sent := [] }
      else { out := .exit COMMS, stderr := [comms_error], sent := [] }
    else { out := .exit COMMS, stderr := [comms_error], sent := [] }

/-- Function `check_func` of intclient.c. -/
def check_func (peer : Peer) (u : Uninit) (func : List Char) : Run Bool :=
  let req := make_validation_request u func
  let r := read_response (peer.reply req)
  match r.out with
  | .ret buffer =>
    let c := check_reply peer buffer
    { out := c.out, stderr := r.stderr ++ c.stderr, sent := [req] }
  | .exit code => { out := .exit code, stderr := r.stderr, sent := [req] }
  | .fault => { out := .fault, stderr := r.stderr, sent := [req] }

/-- The text `prefix (line lineNum)\n` of the diagnostics of `check_validity`. -/
def diag (msg : List Char) (lineNum : Int) : List Char :=
  "intclient: ".toList ++ msg ++ " (line ".toList ++ sprintf_d lineNum ++ ")\n".toList

def msg_spaces : List Char := "spaces not permitted in expression".toList

def msg_bounds : List Char := "upper bound must be greater than lower bound".toList

def msg_segments : List Char := "segments must be a positive integer".toList

def msg_threads : List Char := "threads must be a positive integer".toList

def msg_multiple : List Char := "segments must be an integer multiple of threads".toList

def msg_bad (func : List Char) : List Char :=
  "bad expression \"".toList ++ func ++ "\"".toList

/-- Function `check_validity` of intclient.c. -/
def check_validity (peer : Peer) (u : Uninit) (fields : Fields) (_num : Nat) (lineNum : Int) :
    Run Bool :=
  if fields.func.any isspace then
    { out := .ret false, stderr := [diag msg_spaces lineNum], sent := [] }
  else if Double.le fields.up fields.low then
    { out := .ret false, stderr := [diag msg_bounds lineNum], sent := [] }
  else if fields.seg ≤ 0 then
    { out := .ret false, stderr := [diag msg_segments lineNum], sent := [] }
  else if fields.thr ≤ 0 then
    { out := .ret false, stderr := [diag msg_threads lineNum], sent := [] }
  else if c_rem fields.seg fields.thr ≠ some 0 then
    { out := .ret false, stderr := [diag msg_multiple lineNum], sent := [] }
  else
    let r := check_func peer u fields.func
    match r.out with
    | .ret true => { out := .ret true, stderr := r.stderr, sent := r.sent }
    | .ret false =>
      { out := .ret false, stderr := r.stderr ++ [diag (msg_bad fields.func) lineNum],
        sent := r.sent }
    | .exit code => { out := .exit code, stderr := r.stderr, sent := r.sent }
    | .fault => { out := .fault, stderr := r.stderr, sent := r.sent }

def syntax_error (lineNum : Int) : List Char :=
  "intclient: syntax error on line ".toList ++ sprintf_d lineNum ++ "\n".toList

/-- Body of the `while` loop of `read_file` for the line `line`, which
`fgets` returned and which is numbered `lineNum`: `ret ()` when the loop goes
on to the next line. -/
def read_line (peer : Peer) (u : Uninit) (line : List Char) (lineNum : Int) : Run Unit :=
  if is_comment line || is_empty line then { out := .ret (), stderr := [], sent := [] }
  else
    let p := split_by_char line '\n'
    let processed := split_by_char (p.getD 0 []) ','
    let j := processed.length
    if !( check_syntax u processed j) then
      { out := .ret (), stderr := [syntax_error lineNum], sent := [] }
    else
      let fields := parse_fields u processed
      let r := check_validity peer u fields j lineNum
      match r.out with
      | .ret _ => { out := .ret (), stderr := r.stderr, sent := r.sent }
      | .exit code => { out := .exit code, stderr := r.stderr, sent := r.sent }
      | .fault => { out := .fault, stderr := r.stderr, sent := r.sent }

/-- The `while` loop of `read_file` on the bytes `f` of the job file, the
last line read being numbered `lineNum`: one unit of fuel per call of
`fgets`; `fault` also stands for fuel running out. -/
def read_file_loop (peer : Peer) (u : Uninit) : Nat → List Char → Int → Run Unit
  | 0, _, _ => { out := .fault, stderr := [], sent := [] }
  | fuel + 1, f, lineNum =>
    match fgets MAX_LINE f with
    | none => { out := .ret (), stderr := [], sent := [] }
    | some (line, rest, _) =>
      let r := read_line peer u line (lineNum + 1)
      match r.out with
      | .ret _ =>
        let k := read_file_loop peer u fuel rest (lineNum + 1)
        { out := k.out, stderr := r.stderr ++ k.stderr, sent := r.sent ++ k.sent }
      | .exit code => { out := .exit code, stderr := r.stderr, sent := r.sent }
      | .fault => { out := .fault, stderr := r.stderr, sent := r.sent }

/-- Function `read_file` of intclient.c on the bytes `f` of the job file. -/
def read_file (peer : Peer) (u : Uninit) (f : List Char) : Run Unit :=
  read_file_loop peer u (f.length + 1) f 0

end Client

/-! ## Definitions used to state the properties -/

/-- Whether `%d` converts the text and `sprintf` with `%d` renders the value
as the same text. -/
def canonical_d (f : List Char) : Bool :=
  match scan_d f with
  | .ok v _ => decide (f = sprintf_d v)
  | _ => false

/-- Whether the magnitude of `d` is at most `INT_MAX`:
`-2147483647 <= d && d <= 2147483647`. -/
def within_int_magnitude (d : Double) : Bool :=
  Double.le (Double.ofInt (-INT_MAX)) d && Double.le d (Double.ofInt INT_MAX)

/-- The fields `check_integrate` parses from a target: the text `sscanf`
stores for `/integrate/%s` (the indeterminate buffer when it stores none),
split at `/` and passed to `parse_fields`. -/
def integrate_fields (u : Uninit) (address : List Char) : Fields :=
  Server.parse_fields u
    (split_by_char
      (match scan_lit_s "/integrate/".toList address with
        | .ok w _ => w
        | _ => u.buf) '/')

/-- The trace the connection loop is to produce for the requests `reqs`
read in this order: each request is followed by its one response, and after
the last the connection is closed. -/
def exchanges (te_compile : List Char → Bool) (u : Uninit)
    (parse : List Char → Server.HttpRequest) : List (List Char) → List Server.Event
  | [] => [Server.Event.close]
  | r :: rs =>
    Server.Event.request r :: Server.Event.response (Server.respond te_compile u parse r) ::
      exchanges te_compile u parse rs

/-- Function `check_validity` of intserver.c with the remainder kept apart:
`none` when the call evaluates `seg % thr` where C leaves it undefined (a zero
divisor, or `INT_MIN % -1`), else the value returned. -/
def Server.check_validity_strict (te_compile : List Char → Bool) (fields : Fields)
    (_num : Nat) : Option Bool :=
  if fields.func.any isspace then some false
  else if Double.le fields.up fields.low then some false
  else if fields.seg ≤ 0 then some false
  else if fields.thr ≤ 0 then some false
  else
    match c_rem fields.seg fields.thr with
    | none => none
    | some r =>
      if r ≠ 0 then some false
      else if !Server.valid_func te_compile fields.func then some false
      else some true

/-- Function `check_validity` of intclient.c with the remainder kept apart:
`none` when the call evaluates `seg % thr` where C leaves it undefined, else
what the call does. -/
def Client.check_validity_strict (peer : Client.Peer) (u : Uninit) (fields : Fields)
    (_num : Nat) (lineNum : Int) : Option (Client.Run Bool) :=
  if fields.func.any isspace then
    some { out := .ret false, stderr := [Client.diag Client.msg_spaces lineNum], sent := [] }
  else if Double.le fields.up fields.low then
    some { out := .ret false, stderr := [Client.diag Client.msg_bounds lineNum], sent := [] }
  else if fields.seg ≤ 0 then
    some { out := .ret false, stderr := [Client.diag Client.msg_segments lineNum], sent := [] }
  else if fields.thr ≤ 0 then
    some { out := .ret false, stderr := [Client.diag Client.msg_threads lineNum], sent := [] }
  else
    match c_rem fields.seg fields.thr with
    | none => none
    | some r =>
      if r ≠ 0 then
        some { out := .ret false, stderr := [Client.diag Client.msg_multiple lineNum],
               sent := [] }
      else
        match (Client.check_func peer u fields.func).out with
        | .ret true =>
          some { out := .ret true, stderr := (Client.check_func peer u fields.func).stderr,
                 sent := (Client.check_func peer u fields.func).sent }
        | .ret false =>
          some { out := .ret false,
                 stderr := (Client.check_func peer u fields.func).stderr ++
                   [Client.diag (Client.msg_bad fields.func) lineNum],
                 sent := (Client.check_func peer u fields.func).sent }
        | .exit code =>
          some { out := .exit code, stderr := (Client.check_func peer u fields.func).stderr,
                 sent := (Client.check_func peer u fields.func).sent }
        | .fault =>
          some { out := .fault, stderr := (Client.check_func peer u fields.func).stderr,
                 sent := (Client.check_func peer u fields.func).sent }

/-- The path `f/lower/upper/segments/threads` of an integration target. -/
def integrate_path (f lower upper segments threads : List Char) : List Char :=
  f ++ '/' :: (lower ++ '/' :: (upper ++ '/' :: (segments ++ '/' :: threads)))

/-- The target `/integrate/f/lower/upper/segments/threads`. -/
def integrate_target (f lower upper segments threads : List Char) : List Char :=
  "/integrate/".toList ++ integrate_path f lower upper segments threads

/-! ## Lemmas on the C library model -/

theorem toInt32_range (v : Int) : INT_MIN ≤ toInt32 v ∧ toInt32 v ≤ INT_MAX := by
  unfold toInt32 INT_MIN INT_MAX
  omega

theorem dropWhile_isspace_ne_nil (f : List Char) (h : f.all isspace = false) :
    f.dropWhile isspace ≠ [] := by
  intro hn
  rw [List.dropWhile_eq_nil_iff] at hn
  have hall : f.all isspace = true := by
    rw [List.all_eq_true]
    exact hn
  rw [hall] at h
  exact Bool.noConfusion h

theorem scan_d_ne_eof (f : List Char) (h : f.all isspace = false) : scan_d f ≠ .eof := by
  have hne := dropWhile_isspace_ne_nil f h
  unfold scan_d
  cases hd : f.dropWhile isspace with
  | nil => exact absurd hd hne
  | cons c t =>
    simp only
    split_ifs <;> simp

theorem scan_lf_ne_eof (f : List Char) (h : f.all isspace = false) : scan_lf f ≠ .eof := by
  have hne := dropWhile_isspace_ne_nil f h
  unfold scan_lf
  cases hd : f.dropWhile isspace with
  | nil => exact absurd hd hne
  | cons c t =>
    simp only
    split <;> simp

/-- Every value `%d` stores is an `int`. -/
theorem scan_d_range (f : List Char) (v : Int) (n : Nat) (h : scan_d f = .ok v n) :
    INT_MIN ≤ v ∧ v ≤ INT_MAX := by
  unfold scan_d at h
  cases hd : f.dropWhile isspace with
  | nil => rw [hd] at h; simp at h
  | cons c t =>
    rw [hd] at h
    simp only at h
    split_ifs at h
    all_goals
      simp only [Scan.ok.injEq] at h
      rw [← h.1]
      exact toInt32_range _

/-! ## Lemmas on `check_syntax` -/

theorem client_float_field_ok_eq : Client.float_field_ok = Server.float_field_ok := rfl

theorem client_int_field_ok_eq : Client.int_field_ok = Server.int_field_ok := rfl

theorem client_parse_fields_eq : Client.parse_fields = Server.parse_fields := rfl

theorem client_is_empty_eq : Client.is_empty = Server.is_empty := rfl

theorem server_check_syntax_five (u : Uninit) (a b c d e : List Char) :
    Server.check_syntax u [a, b, c, d, e] 5 =
      (!Server.is_empty a && !Server.is_empty b && !Server.is_empty c && !Server.is_empty d &&
        !Server.is_empty e && Server.float_field_ok u b && Server.float_field_ok u c &&
        Server.int_field_ok u d && Server.int_field_ok u e) := by
  simp [Server.check_syntax, Server.NUM_FIELDS, List.range, List.range.loop, List.range',
    Bool.and_assoc]

theorem client_check_syntax_five (u : Uninit) (a b c d e : List Char) :
    Client.check_syntax u [a, b, c, d, e] 5 = Server.check_syntax u [a, b, c, d, e] 5 := by
  rw [server_check_syntax_five]
  simp [Client.check_syntax, Client.MIN_FIELDS, List.range, List.range.loop, List.range',
    Bool.and_assoc, client_float_field_ok_eq, client_int_field_ok_eq, client_is_empty_eq]

theorem length_five (fields : List (List Char)) (h : fields.length = 5) :
    ∃ a b c d e, fields = [a, b, c, d, e] := by
  match fields, h with
  | [a, b, c, d, e], _ => exact ⟨a, b, c, d, e, rfl⟩

/-- A non-blank field that passes the integer loop of `check_syntax` was
converted by `%d`, read to its end, and is the `%d` rendering of the value. -/
theorem int_field_ok_spec (u : Uninit) (f : List Char) (he : Server.is_empty f = false)
    (h : Server.int_field_ok u f = true) :
    ∃ v n, scan_d f = .ok v n ∧ n = f.length ∧ f = sprintf_d v := by
  unfold Server.int_field_ok at h
  cases hs : scan_d f with
  | eof => exact absurd hs (scan_d_ne_eof f he)
  | fail => rw [hs] at h; simp at h
  | ok v n =>
    rw [hs] at h
    simp only [Bool.and_eq_true, decide_eq_true_eq] at h
    exact ⟨v, n, rfl, h.1, h.2⟩

/-- A non-blank field that passes the floating-point loop of `check_syntax`
was converted by `%lf`, read to its end, and is not greater than `INT_MAX`. -/
theorem float_field_ok_spec (u : Uninit) (f : List Char) (he : Server.is_empty f = false)
    (h : Server.float_field_ok u f = true) :
    ∃ v n, scan_lf f = .ok v n ∧ n = f.length ∧ Double.gt v (Double.ofInt INT_MAX) = false := by
  unfold Server.float_field_ok at h
  cases hs : scan_lf f with
  | eof => exact absurd hs (scan_lf_ne_eof f he)
  | fail => rw [hs] at h; simp at h
  | ok v n =>
    rw [hs] at h
    simp only [Bool.and_eq_true, decide_eq_true_eq, Bool.not_eq_true'] at h
    exact ⟨v, n, rfl, h.1, h.2⟩

theorem int_field_ok_canonical (u : Uninit) (f : List Char) (he : Server.is_empty f = false)
    (h : Server.int_field_ok u f = true) : canonical_d f = true := by
  obtain ⟨v, n, hs, _, hf⟩ := int_field_ok_spec u f he h
  unfold canonical_d
  rw [hs]
  exact decide_eq_true hf

/-- What acceptance of a five-field record by the server's `check_syntax`
says about each field. -/
theorem server_check_syntax_five_true (u : Uninit) (a b c d e : List Char)
    (h : Server.check_syntax u [a, b, c, d, e] 5 = true) :
    (Server.is_empty b = false ∧ Server.float_field_ok u b = true) ∧
    (Server.is_empty c = false ∧ Server.float_field_ok u c = true) ∧
    (Server.is_empty d = false ∧ Server.int_field_ok u d = true) ∧
    (Server.is_empty e = false ∧ Server.int_field_ok u e = true) := by
  rw [server_check_syntax_five] at h
  simp only [Bool.and_eq_true, Bool.not_eq_true'] at h
  obtain ⟨⟨⟨⟨⟨⟨⟨⟨_, hb⟩, hc⟩, hd⟩, he⟩, fb⟩, fc⟩, fd⟩, fe⟩ := h
  exact ⟨⟨hb, fb⟩, ⟨hc, fc⟩, ⟨hd, fd⟩, ⟨he, fe⟩⟩

theorem either_check_syntax_five (u : Uninit) (a b c d e : List Char)
    (h : Server.check_syntax u [a, b, c, d, e] 5 = true ∨
      Client.check_syntax u [a, b, c, d, e] 5 = true) :
    Server.check_syntax u [a, b, c, d, e] 5 = true := by
  rcases h with h | h
  · exact h
  · rw [client_check_syntax_five] at h
    exact h

theorem digitChar_isdigit (k : Nat) (h : k < 10) : isdigit (Nat.digitChar k) = true := by
  interval_cases k <;> decide

theorem toDigitsCore_isdigit (fuel n : Nat) (ds : List Char)
    (h : ∀ c ∈ ds, isdigit c = true) : ∀ c ∈ Nat.toDigitsCore 10 fuel n ds, isdigit c = true := by
  induction fuel generalizing n ds with
  | zero => simpa [Nat.toDigitsCore] using h
  | succ k ih =>
    have hd : ∀ c ∈ Nat.digitChar (n % 10) :: ds, isdigit c = true := by
      intro c hc
      rcases List.mem_cons.mp hc with hc | hc
      · rw [hc]
        exact digitChar_isdigit _ (Nat.mod_lt _ (by decide))
      · exact h c hc
    simp only [Nat.toDigitsCore]
    split_ifs
    · exact hd
    · exact ih _ _ hd

/-- The text `sprintf` writes for `%d` is made of decimal digits and `-`. -/
theorem sprintf_d_chars (d : Int) : ∀ c ∈ sprintf_d d, isdigit c = true ∨ c = '-' := by
  have hdig : ∀ n : Nat, ∀ c ∈ Nat.toDigits 10 n, isdigit c = true := by
    intro n
    exact toDigitsCore_isdigit _ _ [] (by simp)
  intro c hc
  unfold sprintf_d at hc
  split_ifs at hc
  · rcases List.mem_cons.mp hc with hc | hc
    · exact Or.inr hc
    · exact Or.inl (hdig _ c hc)
  · exact Or.inl (hdig _ c hc)

/-! ## Independence from indeterminate values -/

theorem float_field_ok_indep (u w : Uninit) (f : List Char) (he : Server.is_empty f = false) :
    Server.float_field_ok u f = Server.float_field_ok w f := by
  unfold Server.float_field_ok
  cases hs : scan_lf f with
  | eof => exact absurd hs (scan_lf_ne_eof f he)
  | fail => rfl
  | ok v n => rfl

theorem int_field_ok_indep (u w : Uninit) (f : List Char) (he : Server.is_empty f = false) :
    Server.int_field_ok u f = Server.int_field_ok w f := by
  unfold Server.int_field_ok
  cases hs : scan_d f with
  | eof => exact absurd hs (scan_d_ne_eof f he)
  | fail => rfl
  | ok v n => rfl

/-- The verdict of `check_syntax` on five fields does not depend on the
indeterminate values: the blank-field loop runs first. -/
theorem server_check_syntax_indep (u w : Uninit) (a b c d e : List Char) :
    Server.check_syntax u [a, b, c, d, e] 5 = Server.check_syntax w [a, b, c, d, e] 5 := by
  rw [server_check_syntax_five, server_check_syntax_five]
  cases hb : Server.is_empty b
  · cases hc : Server.is_empty c
    · cases hd : Server.is_empty d
      · cases he : Server.is_empty e
        · rw [float_field_ok_indep u w b hb, float_field_ok_indep u w c hc,
            int_field_ok_indep u w d hd, int_field_ok_indep u w e he]
        · simp
      · simp
    · simp
  · simp

/-- The fields parsed from an accepted record do not depend on the
indeterminate values: every conversion of `parse_fields` takes place. -/
theorem server_parse_fields_indep (u w : Uninit) (a b c d e : List Char)
    (h : Server.check_syntax u [a, b, c, d, e] 5 = true) :
    Server.parse_fields u [a, b, c, d, e] = Server.parse_fields w [a, b, c, d, e] := by
  obtain ⟨⟨hb, fb⟩, ⟨hc, fc⟩, ⟨hd, fd⟩, ⟨he, fe⟩⟩ := server_check_syntax_five_true u a b c d e h
  obtain ⟨_, _, h1, _, _⟩ := float_field_ok_spec u b hb fb
  obtain ⟨_, _, h2, _, _⟩ := float_field_ok_spec u c hc fc
  obtain ⟨_, _, h3, _, _⟩ := int_field_ok_spec u d hd fd
  obtain ⟨_, _, h4, _, _⟩ := int_field_ok_spec u e he fe
  simp [Server.parse_fields, h1, h2, h3, h4]

/-! ## Lemmas on the client's `check_func` and `check_validity` -/

theorem c_rem_pos (a b : Int) (ha : 0 < a) (hb : 0 < b) : c_rem a b = some (a % b) := by
  unfold c_rem
  rw [if_neg (by omega), if_neg (by intro h; omega), Int.tmod_eq_emod (le_of_lt ha) (le_of_lt hb)]

theorem read_response_stderr (f : List Char) (b : Option (List Char))
    (h : (Client.read_response f).out = .ret b) : (Client.read_response f).stderr = [] := by
  unfold Client.read_response at h ⊢
  split at h <;> simp_all

theorem check_reply_stderr (peer : Client.Peer) (buffer : Option (List Char)) (b : Bool)
    (h : (Client.check_reply peer buffer).out = .ret b) :
    (Client.check_reply peer buffer).stderr = [] := by
  unfold Client.check_reply at h ⊢
  cases buffer with
  | none => simp at h
  | some t =>
    simp only at h ⊢
    split_ifs at h ⊢ <;> simp_all

theorem check_func_sent (peer : Client.Peer) (u : Uninit) (func : List Char) :
    (Client.check_func peer u func).sent = [Client.make_validation_request u func] := by
  unfold Client.check_func
  simp only
  split <;> rfl

theorem check_func_stderr (peer : Client.Peer) (u : Uninit) (func : List Char) (b : Bool)
    (h : (Client.check_func peer u func).out = .ret b) :
    (Client.check_func peer u func).stderr = [] := by
  unfold Client.check_func at h ⊢
  simp only at h ⊢
  split at h
  · next buffer hb =>
    simp only at h ⊢
    rw [read_response_stderr _ _ hb, check_reply_stderr _ _ _ h]
    rfl
  · simp at h
  · simp at h

/-! ## Lemmas on the server's `check_validity` -/

theorem double_gt_of_not_le (a b : Double) (ha : a ≠ Double.nan) (hb : b ≠ Double.nan)
    (h : Double.le a b = false) : Double.gt a b = true := by
  cases a with
  | nan => exact absurd rfl ha
  | inf x =>
    cases b with
    | nan => exact absurd rfl hb
    | inf y => cases x <;> cases y <;> simp_all [Double.le, Double.gt, Double.lt]
    | fin m e => cases x <;> simp_all [Double.le, Double.gt, Double.lt]
  | fin m e =>
    cases b with
    | nan => exact absurd rfl hb
    | inf y => cases y <;> simp_all [Double.le, Double.gt, Double.lt]
    | fin m2 e2 =>
      simp only [Double.le, decide_eq_false_iff_not, not_le] at h
      simp only [Double.gt, Double.lt, decide_eq_true_eq]
      rw [min_comm e2 e]
      exact h

/-- What acceptance by the server's `check_validity` says about the fields:
every part of the invariant of a validated job, with `up <= low` false in
place of `up > low`; the two agree unless a bound is NaN. -/
theorem server_check_validity_true (te_compile : List Char → Bool) (f : Fields) (num : Nat)
    (h : Server.check_validity te_compile f num = true) :
    f.func.any isspace = false ∧ Double.le f.up f.low = false ∧ 0 < f.seg ∧ 0 < f.thr ∧
      f.seg % f.thr = 0 ∧ Server.valid_func te_compile f.func = true ∧
      (f.low ≠ Double.nan → f.up ≠ Double.nan → Double.gt f.up f.low = true) := by
  unfold Server.check_validity at h
  split_ifs at h with h1 h2 h3 h4 h5 h6
  have h3 : 0 < f.seg := by omega
  have h4 : 0 < f.thr := by omega
  have h2 : Double.le f.up f.low = false := by simpa using h2
  rw [c_rem_pos _ _ h3 h4] at h5
  refine ⟨by simpa using h1, h2, h3, h4, ?_, by simpa using h6, ?_⟩
  · simpa using h5
  · intro hl hu
    exact double_gt_of_not_le _ _ hu hl h2

/-- The fields `check_integrate` parses from a target it accepts pass
`check_validity`. -/
theorem server_check_integrate_true (te_compile : List Char → Bool) (u : Uninit)
    (address : List Char) (h : Server.check_integrate te_compile u address = true) :
    ∃ text, Server.check_syntax u (split_by_char text '/') (split_by_char text '/').length = true ∧
      Server.check_validity te_compile (Server.parse_fields u (split_by_char text '/'))
        (split_by_char text '/').length = true := by
  unfold Server.check_integrate at h
  simp only at h
  split_ifs at h with h1 h2
  exact ⟨_, by simpa using h1, by simpa using h2⟩

/-! ## Lemmas on `fgets` and `read_request` -/

theorem fgetsAux_length_le (room : Nat) (s : List Char) :
    (fgetsAux room s).2.1.length ≤ s.length := by
  induction room generalizing s with
  | zero => simp [fgetsAux]
  | succ k ih =>
    cases s with
    | nil => simp [fgetsAux]
    | cons c t =>
      simp only [fgetsAux]
      split_ifs
      · simp
      · have := ih t
        simp only [List.length_cons]
        omega

theorem fgets_length_lt (f line rest : List Char) (eof : Bool)
    (h : fgets MAX_LINE f = some (line, rest, eof)) : rest.length < f.length := by
  cases f with
  | nil => simp [fgets] at h
  | cons c t =>
    simp only [fgets, MAX_LINE, Option.some.injEq] at h
    have h2 : (fgetsAux (1024 - 1) (c :: t)).2.1 = rest := by rw [h]
    rw [← h2]
    show (fgetsAux (1022 + 1) (c :: t)).2.1.length < (c :: t).length
    simp only [fgetsAux]
    split_ifs
    · simp
    · have := fgetsAux_length_le 1022 t
      simp only [List.length_cons]
      omega

/-- The loop of `read_request` never leaves more than it was given, and it
leaves less when it sets the buffer. -/
theorem read_request_loop_length (fuel : Nat) (st st1 : ReadState) (f rest : List Char)
    (h : Server.read_request_loop fuel st f = some (st1, rest)) :
    rest.length ≤ f.length ∧ (st.buffer = none → st1.buffer ≠ none → rest.length < f.length) := by
  induction fuel generalizing st f with
  | zero => simp [Server.read_request_loop] at h
  | succ k ih =>
    unfold Server.read_request_loop at h
    cases hg : fgets MAX_LINE f with
    | none =>
      rw [hg] at h
      simp only [Option.some.injEq, Prod.mk.injEq] at h
      obtain ⟨h1, h2⟩ := h
      subst h1 h2
      exact ⟨le_refl _, fun a b => absurd a b⟩
    | some r =>
      obtain ⟨temp, rest1, eof⟩ := r
      have hlt := fgets_length_lt f temp rest1 eof hg
      rw [hg] at h
      simp only at h
      split_ifs at h
      all_goals first
        | (simp only [Option.some.injEq, Prod.mk.injEq] at h
           obtain ⟨h1, h2⟩ := h
           subst h2
           exact ⟨le_of_lt hlt, fun _ _ => hlt⟩)
        | (have hle := (ih _ _ h).1
           exact ⟨by omega, fun _ _ => by omega⟩)

theorem read_request_loop_total (fuel : Nat) (st : ReadState) (f : List Char)
    (h : f.length < fuel) : Server.read_request_loop fuel st f ≠ none := by
  induction fuel generalizing st f with
  | zero => omega
  | succ k ih =>
    unfold Server.read_request_loop
    cases hg : fgets MAX_LINE f with
    | none => simp
    | some r =>
      obtain ⟨temp, rest1, eof⟩ := r
      have hlt := fgets_length_lt f temp rest1 eof hg
      simp only
      split_ifs
      all_goals first
        | exact ih _ _ (by omega)
        | simp

/-- The function `read_request` returns: the fuel it is given is enough. -/
theorem read_request_total (f : List Char) : Server.read_request f ≠ none := by
  unfold Server.read_request
  have := read_request_loop_total (f.length + 1) Server.read_init f (by omega)
  cases hr : Server.read_request_loop (f.length + 1) Server.read_init f with
  | none => exact absurd hr this
  | some r => simp

/-- A request that `read_request` returns took at least one byte off the
stream. -/
theorem read_request_consumes (f req rest : List Char)
    (h : Server.read_request f = some (some req, rest)) : rest.length < f.length := by
  unfold Server.read_request at h
  cases hr : Server.read_request_loop (f.length + 1) Server.read_init f with
  | none => rw [hr] at h; simp at h
  | some r =>
    obtain ⟨st, rest1⟩ := r
    rw [hr] at h
    simp only [Option.some.injEq, Prod.mk.injEq] at h
    obtain ⟨h1, h2⟩ := h
    subst h2
    have hb : st.buffer ≠ none := by
      intro hn
      split_ifs at h1
      rw [hn] at h1
      exact Option.noConfusion h1
    exact (read_request_loop_length _ _ _ _ _ hr).2 rfl hb

theorem scan_s_token (text : List Char) (h1 : text ≠ []) (h2 : text.any isspace = false) :
    scan_s text = .ok text text.length := by
  have hall : ∀ x ∈ text, isspace x = false := by
    intro x hx
    cases hsp : isspace x with
    | false => rfl
    | true =>
      have : text.any isspace = true := List.any_eq_true.mpr ⟨x, hx, hsp⟩
      rw [this] at h2
      exact Bool.noConfusion h2
  cases text with
  | nil => exact absurd rfl h1
  | cons c t =>
    have hc : isspace c = false := hall c (List.mem_cons_self c t)
    have htw : (c :: t).takeWhile (fun x => !isspace x) = c :: t := by
      rw [List.takeWhile_eq_self_iff]
      intro x hx
      simp [hall x hx]
    unfold scan_s
    simp only [List.takeWhile_cons, List.dropWhile_cons, hc]
    simp only [Bool.false_eq_true, if_false, Bool.not_false, if_true]
    have htw2 : t.takeWhile (fun x => !isspace x) = t := by
      simpa [List.takeWhile_cons, hc] using htw
    simp [htw2, hc]

theorem scan_lit_s_append (lit text : List Char) :
    scan_lit_s lit (lit ++ text) =
      match scan_s text with
      | .ok w n => .ok w (n + lit.length)
      | .eof => .eof
      | .fail => .fail := by
  induction lit with
  | nil =>
    simp only [List.nil_append, scan_lit_s, List.length_nil, Nat.add_zero]
  | cons c l ih =>
    simp only [List.cons_append, scan_lit_s, if_true, List.length_cons, List.append_eq]
    rw [ih]
    cases scan_s text <;> simp [Nat.add_assoc]

theorem scan_validate_on_integrate (text : List Char) :
    scan_lit_s "/validate/".toList ("/integrate/".toList ++ text) = .fail := by
  rfl

theorem check_type_validate (n : Int) (text : List Char) (hn : 0 < n) (h1 : text ≠ [])
    (h2 : text.any isspace = false) :
    Server.check_type n "GET".toList ("/validate/".toList ++ text) = Server.VALIDATE := by
  unfold Server.check_type
  rw [if_neg (by omega), if_neg (by simp), scan_lit_s_append, scan_s_token text h1 h2]
  simp [Scan.ret]

theorem check_type_integrate (n : Int) (text : List Char) (hn : 0 < n) (h1 : text ≠ [])
    (h2 : text.any isspace = false) :
    Server.check_type n "GET".toList ("/integrate/".toList ++ text) = Server.INTEGRATE := by
  unfold Server.check_type
  rw [if_neg (by omega), if_neg (by simp), scan_validate_on_integrate, scan_lit_s_append,
    scan_s_token text h1 h2]
  simp [Scan.ret]

theorem check_func_validate (te_compile : List Char → Bool) (u : Uninit) (text : List Char)
    (h1 : text ≠ []) (h2 : text.any isspace = false) :
    Server.check_func te_compile u ("/validate/".toList ++ text) = te_compile text := by
  unfold Server.check_func
  rw [scan_lit_s_append, scan_s_token text h1 h2]
  simp [Server.valid_func]

theorem check_type_rejects (n : Int) (method address : List Char)
    (h : n ≤ 0 ∨ method ≠ "GET".toList) : Server.check_type n method address = 0 := by
  unfold Server.check_type
  rcases h with h | h
  · rw [if_pos h]
  · by_cases hn : n ≤ 0
    · rw [if_pos hn]
    · rw [if_neg hn, if_pos h]

/-! ## Lemmas on `client_thread` -/

theorem client_thread_loop_fuel (te_compile : List Char → Bool) (u : Uninit)
    (parse : List Char → Server.HttpRequest) (fuel1 fuel2 : Nat) (f : List Char)
    (h1 : f.length < fuel1) (h2 : f.length < fuel2) :
    Server.client_thread_loop te_compile u parse fuel1 f =
      Server.client_thread_loop te_compile u parse fuel2 f := by
  induction fuel1 generalizing fuel2 f with
  | zero => omega
  | succ k1 ih =>
    cases fuel2 with
    | zero => omega
    | succ k2 =>
      simp only [Server.client_thread_loop]
      cases hr : Server.read_request f with
      | none => rfl
      | some p =>
        obtain ⟨o, rest⟩ := p
        cases o with
        | none => rfl
        | some req =>
          have hlt := read_request_consumes f req rest hr
          simp only
          rw [ih k2 rest (by omega) (by omega)]

theorem client_thread_loop_exchanges (te_compile : List Char → Bool) (u : Uninit)
    (parse : List Char → Server.HttpRequest) (fuel : Nat) (f : List Char)
    (h : f.length < fuel) :
    ∃ reqs, Server.client_thread_loop te_compile u parse fuel f =
      some (exchanges te_compile u parse reqs) := by
  induction fuel generalizing f with
  | zero => omega
  | succ k ih =>
    simp only [Server.client_thread_loop]
    cases hr : Server.read_request f with
    | none => exact absurd hr (read_request_total f)
    | some p =>
      obtain ⟨o, rest⟩ := p
      cases o with
      | none => exact ⟨[], rfl⟩
      | some req =>
        have hlt := read_request_consumes f req rest hr
        obtain ⟨reqs, hreqs⟩ := ih rest (by omega)
        refine ⟨req :: reqs, ?_⟩
        simp only [hreqs, exchanges]

/-! ## Lemmas on the record length -/

theorem server_check_syntax_short (u : Uninit) (fields : List (List Char)) (num : Nat)
    (h : num < 5) : Server.check_syntax u fields num = false := by
  unfold Server.check_syntax Server.NUM_FIELDS
  rw [if_pos (by omega)]

theorem client_check_syntax_short (u : Uninit) (fields : List (List Char)) (num : Nat)
    (h : num < 5) : Client.check_syntax u fields num = false := by
  unfold Client.check_syntax Client.MIN_FIELDS
  rw [if_pos h]

/-! ## Lemmas on `fgets` and the loop of `read_file` -/

/-- A line shorter than the room left is read whole, with its newline when
it has one, and the stream is left after it. -/
theorem fgetsAux_line (room : Nat) (body term : List Char) (hb : '\n' ∉ body)
    (hlen : body.length < room) (hterm : term = [] ∨ term.head? = some '\n') :
    (fgetsAux room (body ++ term)).1 = body ++ term.take 1 ∧
      (fgetsAux room (body ++ term)).2.1 = term.tail := by
  induction body generalizing room with
  | nil =>
    cases room with
    | zero => omega
    | succ k =>
      cases term with
      | nil => simp [fgetsAux]
      | cons c t =>
        have hc : c = '\n' := by
          rcases hterm with h | h
          · exact absurd h (by simp)
          · simpa using h
        subst hc
        simp [fgetsAux]
  | cons c t ih =>
    cases room with
    | zero => simp at hlen
    | succ k =>
      have hc : c ≠ '\n' := fun h => hb (h ▸ List.mem_cons_self _ _)
      have ht : '\n' ∉ t := fun h => hb (List.mem_cons_of_mem _ h)
      have := ih k ht (by simpa using hlen)
      simp only [List.cons_append, fgetsAux, if_neg hc]
      exact ⟨congrArg (List.cons c) this.1, this.2⟩

/-- A run without newline that fills the room is read as one piece, and the
stream is left after it. -/
theorem fgetsAux_full (room : Nat) (body rest : List Char) (hb : '\n' ∉ body)
    (hlen : body.length = room) :
    (fgetsAux room (body ++ rest)).1 = body ∧ (fgetsAux room (body ++ rest)).2.1 = rest := by
  induction body generalizing room with
  | nil =>
    simp only [List.length_nil] at hlen
    subst hlen
    simp [fgetsAux]
  | cons c t ih =>
    cases room with
    | zero => simp at hlen
    | succ k =>
      have hc : c ≠ '\n' := fun h => hb (h ▸ List.mem_cons_self _ _)
      have ht : '\n' ∉ t := fun h => hb (List.mem_cons_of_mem _ h)
      have := ih k ht (by simpa using hlen)
      simp only [List.cons_append, fgetsAux, if_neg hc]
      exact ⟨congrArg (List.cons c) this.1, this.2⟩

theorem fgets_eq (f : List Char) (h : f ≠ []) :
    fgets MAX_LINE f = some (fgetsAux 1023 f) := by
  cases f with
  | nil => exact absurd rfl h
  | cons c t => rfl

theorem read_file_loop_fuel (peer : Client.Peer) (u : Uninit) (fuel1 fuel2 : Nat)
    (f : List Char) (m : Int) (h1 : f.length < fuel1) (h2 : f.length < fuel2) :
    Client.read_file_loop peer u fuel1 f m = Client.read_file_loop peer u fuel2 f m := by
  induction fuel1 generalizing fuel2 f m with
  | zero => omega
  | succ k1 ih =>
    cases fuel2 with
    | zero => omega
    | succ k2 =>
      simp only [Client.read_file_loop]
      cases hg : fgets MAX_LINE f with
      | none => rfl
      | some p =>
        obtain ⟨line, rest, eof⟩ := p
        have hlt := fgets_length_lt f line rest eof hg
        simp only
        rw [ih k2 rest (m + 1) (by omega) (by omega)]

/-- The body of the loop of `read_file` does nothing for a comment line and
for a line of white space. -/
theorem read_line_ignored (peer : Client.Peer) (u : Uninit) (line : List Char) (n : Int)
    (h : Client.is_comment line = true ∨ Client.is_empty line = true) :
    Client.read_line peer u line n = ⟨.ret (), [], []⟩ := by
  unfold Client.read_line
  have hor : (Client.is_comment line || Client.is_empty line) = true := by
    rcases h with h | h <;> simp [h]
  rw [if_pos hor]

/-- When `fgets` returns a comment line or a line of white space, the loop
of `read_file` goes on with the rest of the file and the next line number. -/
theorem read_file_loop_ignored (peer : Client.Peer) (u : Uninit) (fuel : Nat)
    (f line rest : List Char) (eof : Bool) (m : Int)
    (hg : fgets MAX_LINE f = some (line, rest, eof))
    (h : Client.is_comment line = true ∨ Client.is_empty line = true) :
    Client.read_file_loop peer u (fuel + 1) f m =
      Client.read_file_loop peer u fuel rest (m + 1) := by
  simp only [Client.read_file_loop, hg, read_line_ignored peer u line (m + 1) h,
    List.nil_append]

theorem read_file_loop_nil (peer : Client.Peer) (u : Uninit) (fuel : Nat) (m : Int) :
    Client.read_file_loop peer u (fuel + 1) [] m = ⟨.ret (), [], []⟩ := by
  simp [Client.read_file_loop, fgets]

theorem fgets_line (body term : List Char) (hb : '\n' ∉ body) (hlen : body.length < 1023)
    (hterm : term = [] ∨ term.head? = some '\n') (hne : body ++ term ≠ []) :
    fgets MAX_LINE (body ++ term) =
      some (body ++ term.take 1, term.tail, (fgetsAux 1023 (body ++ term)).2.2) := by
  have h := fgetsAux_line 1023 body term hb hlen hterm
  rw [fgets_eq _ hne, ← h.1, ← h.2]

theorem fgets_full (body rest : List Char) (hb : '\n' ∉ body) (hlen : body.length = 1023) :
    fgets MAX_LINE (body ++ rest) =
      some (body, rest, (fgetsAux 1023 (body ++ rest)).2.2) := by
  have h := fgetsAux_full 1023 body rest hb hlen
  have hne : body ++ rest ≠ [] := by
    intro hn
    have : (body ++ rest).length = 0 := by rw [hn]; rfl
    simp only [List.length_append] at this
    omega
  have e1 : (fgetsAux 1023 (body ++ rest)).1 = body := h.1
  have e2 : (fgetsAux 1023 (body ++ rest)).2.1 = rest := h.2
  rw [fgets_eq _ hne]
  congr 1
  exact Prod.ext e1 (Prod.ext e2 rfl)

/-- A comment line that fits the buffer with its newline is skipped: the
loop of `read_file` goes on with what follows the line. -/
theorem comment_line_skipped (peer : Client.Peer) (u : Uninit) (body term : List Char)
    (m : Int) (fuel1 fuel2 : Nat) (hb : '\n' ∉ body)
    (hterm : term = [] ∨ term.head? = some '\n') (hc : body.head? = some '#')
    (hlen : body.length < 1023) (h1 : (body ++ term).length < fuel1)
    (h2 : term.tail.length < fuel2) :
    Client.read_file_loop peer u fuel1 (body ++ term) m =
      Client.read_file_loop peer u fuel2 term.tail (m + 1) := by
  cases body with
  | nil => simp at hc
  | cons c t =>
    have hc' : c = '#' := by simpa using hc
    cases fuel1 with
    | zero => omega
    | succ k =>
      have hg := fgets_line (c :: t) term hb hlen hterm (by simp)
      rw [read_file_loop_ignored peer u k _ _ _ _ m hg
        (Or.inl (by simp [Client.is_comment, hc']))]
      apply read_file_loop_fuel
      · simp only [List.length_append, List.length_cons] at h1
        have : term.tail.length ≤ term.length := by simp
        omega
      · exact h2

/-- A line of white space, however long, is skipped: the loop of `read_file`
reads it in `k` pieces and goes on with what follows the line. -/
theorem blank_line_skipped (peer : Client.Peer) (u : Uninit) (n : Nat) :
    ∀ (body term : List Char) (m : Int) (fuel1 fuel2 : Nat), body.length ≤ n →
      '\n' ∉ body → (term = [] ∨ term.head? = some '\n') → body.all isspace = true →
      (body ++ term).length < fuel1 → term.tail.length < fuel2 →
      ∃ k : Nat, Client.read_file_loop peer u fuel1 (body ++ term) m =
        Client.read_file_loop peer u fuel2 term.tail (m + k) := by
  induction n with
  | zero =>
    intro body term m fuel1 fuel2 hn hb hterm hws h1 h2
    have hnil : body = [] := List.length_eq_zero.mp (by omega)
    subst hnil
    cases fuel1 with
    | zero => omega
    | succ k1 =>
      cases term with
      | nil =>
        cases fuel2 with
        | zero => simp at h2
        | succ k2 =>
          exact ⟨0, by simp [read_file_loop_nil]⟩
      | cons c t =>
        have hg := fgets_line [] (c :: t) hb (by decide) hterm (by simp)
        refine ⟨1, ?_⟩
        have hc : c = '\n' := by
          rcases hterm with h | h
          · exact absurd h (by simp)
          · simpa using h
        subst hc
        rw [read_file_loop_ignored peer u k1 _ _ _ _ m hg
          (Or.inr (by simp [Client.is_empty, isspace]))]
        simp only [List.nil_append, List.length_cons] at h1
        exact read_file_loop_fuel peer u _ _ _ _ (by simpa using h1) h2
  | succ n ih =>
    intro body term m fuel1 fuel2 hn hb hterm hws h1 h2
    have hall : ∀ x ∈ body, isspace x = true := List.all_eq_true.mp hws
    cases fuel1 with
    | zero => omega
    | succ k1 =>
      by_cases hshort : body.length < 1023
      · by_cases hne : body ++ term = []
        · have hb0 : body = [] := (List.append_eq_nil.mp hne).1
          have ht0 : term = [] := (List.append_eq_nil.mp hne).2
          subst hb0 ht0
          cases fuel2 with
          | zero => simp at h2
          | succ k2 => exact ⟨0, by simp [read_file_loop_nil]⟩
        · have hg := fgets_line body term hb hshort hterm hne
          have hemp : Client.is_empty (body ++ term.take 1) = true := by
            unfold Client.is_empty
            rw [List.all_append, hws]
            rcases hterm with h | h
            · subst h; rfl
            · cases term with
              | nil => rfl
              | cons c t =>
                have hc : c = '\n' := by simpa using h
                subst hc
                rfl
          refine ⟨1, ?_⟩
          rw [read_file_loop_ignored peer u k1 _ _ _ _ m hg (Or.inr hemp)]
          apply read_file_loop_fuel
          · simp only [List.length_append] at h1
            have : term.tail.length ≤ term.length := by simp
            have hpos : 0 < body.length + term.length := by
              rcases List.length_pos.mpr hne with h
              simpa [List.length_append] using h
            cases term with
            | nil => simp at *; omega
            | cons c t => simp at *; omega
          · exact h2
      · have hsplit : body = body.take 1023 ++ body.drop 1023 := (List.take_append_drop _ _).symm
        have htl : (body.take 1023).length = 1023 := by
          rw [List.length_take]
          omega
        have htb : '\n' ∉ body.take 1023 := fun h => hb (List.mem_of_mem_take h)
        have hdb : '\n' ∉ body.drop 1023 := fun h => hb (List.mem_of_mem_drop h)
        have hg := fgets_full (body.take 1023) (body.drop 1023 ++ term) htb htl
        have hf : body ++ term = body.take 1023 ++ (body.drop 1023 ++ term) := by
          rw [← List.append_assoc, List.take_append_drop]
        have hemp : Client.is_empty (body.take 1023) = true := by
          unfold Client.is_empty
          exact List.all_eq_true.mpr (fun x hx => hall x (List.mem_of_mem_take hx))
        have hdl : (body.drop 1023).length ≤ n := by
          rw [List.length_drop]
          omega
        have hdws : (body.drop 1023).all isspace = true :=
          List.all_eq_true.mpr (fun x hx => hall x (List.mem_of_mem_drop hx))
        have hfuel : (body.drop 1023 ++ term).length < k1 := by
          have e : (body ++ term).length = 1023 + (body.drop 1023 ++ term).length := by
            rw [hf, List.length_append, htl]
          omega
        obtain ⟨k, hk⟩ := ih (body.drop 1023) term (m + 1) k1 fuel2 hdl hdb hterm hdws hfuel h2
        refine ⟨k + 1, ?_⟩
        have e : m + 1 + (k : Int) = m + ((k + 1 : Nat) : Int) := by omega
        rw [hf, read_file_loop_ignored peer u k1 _ _ _ _ m hg (Or.inr hemp), hk, e]

/-! ## Lemmas on `split_by_char` and the integration target -/

theorem split_by_char_length (s : List Char) (sep : Char) :
    (split_by_char s sep).length = s.count sep + 1 := by
  induction s with
  | nil => rfl
  | cons c t ih =>
    by_cases h : c = sep
    · subst h
      simp [split_by_char, ih]
    · have hne : (c == sep) = false := by simpa using h
      simp only [split_by_char, if_neg h, List.count_cons, hne]
      cases hs : split_by_char t sep with
      | nil => rw [hs] at ih; simp at ih
      | cons f fs => rw [hs] at ih; simpa using ih

theorem integrate_path_count (f lower upper segments threads : List Char) (hf : '/' ∈ f) :
    5 ≤ (integrate_path f lower upper segments threads).count '/' := by
  have h1 : 1 ≤ f.count '/' := List.count_pos_iff.mpr hf
  simp only [integrate_path, List.count_append, List.count_cons_self]
  omega

theorem server_check_syntax_ne_five (u : Uninit) (fields : List (List Char)) (num : Nat)
    (h : num ≠ 5) : Server.check_syntax u fields num = false := by
  unfold Server.check_syntax Server.NUM_FIELDS
  rw [if_pos h]

/-- A target whose text after `/integrate/` has no white space and splits at
`/` into a number of fields other than five is rejected. -/
theorem check_integrate_field_count (te_compile : List Char → Bool) (u : Uninit)
    (text : List Char) (h1 : text ≠ []) (h2 : text.any isspace = false)
    (h5 : (split_by_char text '/').length ≠ 5) :
    Server.check_integrate te_compile u ("/integrate/".toList ++ text) = false := by
  unfold Server.check_integrate
  simp only [scan_lit_s_append, scan_s_token text h1 h2]
  rw [server_check_syntax_ne_five u _ _ h5]
  rfl

/-! ## The claims -/

/-- C1 (the code departs from it): the server's `check_integrate` accepts the
target `/integrate/x/nan/1/4/2` when tinyexpr compiles `x`; the lower bound
parsed from it is NaN, and `up > low` is false for the parsed fields, so the
invariant `upper > lower` does not hold for every accepted target. What does
hold for every accepted target: `up <= low` is false (so `up > low` unless a
bound is NaN), `seg > 0`, `thr > 0`, `seg % thr == 0`, the function has no
white space and `valid_func` accepts it. -/
theorem check_integrate_accepts_nan_bound :
    (Server.check_integrate (fun f => f == "x".toList) ⟨[], Double.fin 0 0, 0, 0⟩
        "/integrate/x/nan/1/4/2".toList = true ∧
      integrate_fields ⟨[], Double.fin 0 0, 0, 0⟩ "/integrate/x/nan/1/4/2".toList =
        ⟨"x".toList, Double.nan, Double.fin 4503599627370496 (-52), 4, 2⟩ ∧
      Double.gt (integrate_fields ⟨[], Double.fin 0 0, 0, 0⟩ "/integrate/x/nan/1/4/2".toList).up
        (integrate_fields ⟨[], Double.fin 0 0, 0, 0⟩ "/integrate/x/nan/1/4/2".toList).low =
          false) ∧
    (∀ (te_compile : List Char → Bool) (u : Uninit) (address : List Char),
      Server.check_integrate te_compile u address = true →
      (integrate_fields u address).func.any isspace = false ∧
      Double.le (integrate_fields u address).up (integrate_fields u address).low = false ∧
      0 < (integrate_fields u address).seg ∧
      0 < (integrate_fields u address).thr ∧
      (integrate_fields u address).seg % (integrate_fields u address).thr = 0 ∧
      Server.valid_func te_compile (integrate_fields u address).func = true ∧
      ((integrate_fields u address).low ≠ Double.nan →
        (integrate_fields u address).up ≠ Double.nan →
        Double.gt (integrate_fields u address).up (integrate_fields u address).low = true)) := by
  refine ⟨by decide, ?_⟩
  intro te_compile u address h
  unfold Server.check_integrate at h
  simp only at h
  split_ifs at h with h1 h2
  exact server_check_validity_true te_compile _ _ (by simpa using h2)

/-- Case analysis of the client's `check_validity` in the order of the source,
with each diagnostic written as `diag` builds it. -/
theorem client_check_validity_cases :
    (∀ (peer : Client.Peer) (u : Uninit) (f : Fields) (num : Nat) (n : Int),
      (f.func.any isspace = true →
        Client.check_validity peer u f num n =
          ⟨.ret false, [Client.diag Client.msg_spaces n], []⟩) ∧
      (f.func.any isspace = false → Double.le f.up f.low = true →
        Client.check_validity peer u f num n =
          ⟨.ret false, [Client.diag Client.msg_bounds n], []⟩) ∧
      (f.func.any isspace = false → Double.le f.up f.low = false → f.seg ≤ 0 →
        Client.check_validity peer u f num n =
          ⟨.ret false, [Client.diag Client.msg_segments n], []⟩) ∧
      (f.func.any isspace = false → Double.le f.up f.low = false → 0 < f.seg → f.thr ≤ 0 →
        Client.check_validity peer u f num n =
          ⟨.ret false, [Client.diag Client.msg_threads n], []⟩) ∧
      (f.func.any isspace = false → Double.le f.up f.low = false → 0 < f.seg → 0 < f.thr →
        f.seg % f.thr ≠ 0 →
        Client.check_validity peer u f num n =
          ⟨.ret false, [Client.diag Client.msg_multiple n], []⟩) ∧
      (f.func.any isspace = false → Double.le f.up f.low = false → 0 < f.seg → 0 < f.thr →
        f.seg % f.thr = 0 →
        (Client.check_validity peer u f num n).sent =
          [Client.make_validation_request u f.func] ∧
        ((Client.check_func peer u f.func).out = .ret true →
          Client.check_validity peer u f num n =
            ⟨.ret true, [], [Client.make_validation_request u f.func]⟩) ∧
        ((Client.check_func peer u f.func).out = .ret false →
          Client.check_validity peer u f num n =
            ⟨.ret false, [Client.diag (Client.msg_bad f.func) n],
              [Client.make_validation_request u f.func]⟩) ∧
        (∀ code, (Client.check_func peer u f.func).out = .exit code →
          (Client.check_validity peer u f num n).out = .exit code)) ∧
      ((Client.check_validity peer u f num n).out = .ret false →
        (Client.check_validity peer u f num n).stderr.length = 1) ∧
      ((Client.check_validity peer u f num n).sent ≠ [] →
        f.func.any isspace = false ∧ Double.le f.up f.low = false ∧ 0 < f.seg ∧ 0 < f.thr ∧
          f.seg % f.thr = 0)) ∧
    (∀ (peer : Client.Peer) (u : Uninit) (n : Int),
      Client.check_syntax u (split_by_char "sin(x),5,2,4,2".toList ',') 5 = true ∧
      Client.check_validity peer u
          (Client.parse_fields u (split_by_char "sin(x),5,2,4,2".toList ',')) 5 n =
        ⟨.ret false, [Client.diag Client.msg_bounds n], []⟩ ∧
      Client.check_syntax u (split_by_char "x,0,1,5,2".toList ',') 5 = true ∧
      Client.check_validity peer u
          (Client.parse_fields u (split_by_char "x,0,1,5,2".toList ',')) 5 n =
        ⟨.ret false, [Client.diag Client.msg_multiple n], []⟩) := by
  have c1 : ∀ (peer : Client.Peer) (u : Uninit) (f : Fields) (num : Nat) (n : Int),
      f.func.any isspace = true →
      Client.check_validity peer u f num n =
        ⟨.ret false, [Client.diag Client.msg_spaces n], []⟩ := by
    intro peer u f num n h1
    simp [Client.check_validity, h1]
  have c2 : ∀ (peer : Client.Peer) (u : Uninit) (f : Fields) (num : Nat) (n : Int),
      f.func.any isspace = false → Double.le f.up f.low = true →
      Client.check_validity peer u f num n =
        ⟨.ret false, [Client.diag Client.msg_bounds n], []⟩ := by
    intro peer u f num n h1 h2
    simp [Client.check_validity, h1, h2]
  have c3 : ∀ (peer : Client.Peer) (u : Uninit) (f : Fields) (num : Nat) (n : Int),
      f.func.any isspace = false → Double.le f.up f.low = false → f.seg ≤ 0 →
      Client.check_validity peer u f num n =
        ⟨.ret false, [Client.diag Client.msg_segments n], []⟩ := by
    intro peer u f num n h1 h2 h3
    simp [Client.check_validity, h1, h2, h3]
  have c4 : ∀ (peer : Client.Peer) (u : Uninit) (f : Fields) (num : Nat) (n : Int),
      f.func.any isspace = false → Double.le f.up f.low = false → 0 < f.seg → f.thr ≤ 0 →
      Client.check_validity peer u f num n =
        ⟨.ret false, [Client.diag Client.msg_threads n], []⟩ := by
    intro peer u f num n h1 h2 h3 h4
    simp [Client.check_validity, h1, h2, h3, h4]
  have c5 : ∀ (peer : Client.Peer) (u : Uninit) (f : Fields) (num : Nat) (n : Int),
      f.func.any isspace = false → Double.le f.up f.low = false → 0 < f.seg → 0 < f.thr →
      f.seg % f.thr ≠ 0 →
      Client.check_validity peer u f num n =
        ⟨.ret false, [Client.diag Client.msg_multiple n], []⟩ := by
    intro peer u f num n h1 h2 h3 h4 h5
    simp [Client.check_validity, h1, h2, not_le.mpr h3, not_le.mpr h4, c_rem_pos _ _ h3 h4, h5]
  have c6 : ∀ (peer : Client.Peer) (u : Uninit) (f : Fields) (num : Nat) (n : Int),
      f.func.any isspace = false → Double.le f.up f.low = false → 0 < f.seg → 0 < f.thr →
      f.seg % f.thr = 0 →
      Client.check_validity peer u f num n =
        (match (Client.check_func peer u f.func).out with
        | .ret true =>
          { out := .ret true, stderr := (Client.check_func peer u f.func).stderr,
            sent := (Client.check_func peer u f.func).sent }
        | .ret false =>
          { out := .ret false,
            stderr := (Client.check_func peer u f.func).stderr ++
              [Client.diag (Client.msg_bad f.func) n],
            sent := (Client.check_func peer u f.func).sent }
        | .exit code =>
          { out := .exit code, stderr := (Client.check_func peer u f.func).stderr,
            sent := (Client.check_func peer u f.func).sent }
        | .fault =>
          { out := .fault, stderr := (Client.check_func peer u f.func).stderr,
            sent := (Client.check_func peer u f.func).sent }) := by
    intro peer u f num n h1 h2 h3 h4 h5
    simp [Client.check_validity, h1, h2, not_le.mpr h3, not_le.mpr h4, c_rem_pos _ _ h3 h4, h5]
  refine ⟨?_, ?_⟩
  · intro peer u f num n
    refine ⟨c1 peer u f num n, c2 peer u f num n, c3 peer u f num n, c4 peer u f num n,
      c5 peer u f num n, ?_, ?_, ?_⟩
    · intro h1 h2 h3 h4 h5
      have h6 := c6 peer u f num n h1 h2 h3 h4 h5
      refine ⟨?_, ?_, ?_, ?_⟩
      · rw [h6]
        split <;> exact check_func_sent peer u f.func
      · intro ht
        rw [h6, ht]
        simp only
        rw [check_func_stderr peer u f.func true ht, check_func_sent]
      · intro hf
        rw [h6, hf]
        simp only
        rw [check_func_stderr peer u f.func false hf, check_func_sent]
        rfl
      · intro code hc
        rw [h6, hc]
    · intro hout
      by_cases h1 : f.func.any isspace = true
      · rw [c1 peer u f num n h1]; rfl
      · have h1 : f.func.any isspace = false := by simpa using h1
        by_cases h2 : Double.le f.up f.low = true
        · rw [c2 peer u f num n h1 h2]; rfl
        · have h2 : Double.le f.up f.low = false := by simpa using h2
          by_cases h3 : f.seg ≤ 0
          · rw [c3 peer u f num n h1 h2 h3]; rfl
          · have h3 : 0 < f.seg := by omega
            by_cases h4 : f.thr ≤ 0
            · rw [c4 peer u f num n h1 h2 h3 h4]; rfl
            · have h4 : 0 < f.thr := by omega
              by_cases h5 : f.seg % f.thr = 0
              · have h6 := c6 peer u f num n h1 h2 h3 h4 h5
                rw [h6] at hout ⊢
                have hst := check_func_stderr peer u f.func false
                revert hout hst
                cases (Client.check_func peer u f.func).out with
                | ret b =>
                  cases b with
                  | true => intro hout; simp at hout
                  | false =>
                    intro _ hst
                    simp only
                    rw [hst rfl]
                    rfl
                | exit code => intro hout; simp at hout
                | fault => intro hout; simp at hout
              · rw [c5 peer u f num n h1 h2 h3 h4 h5]; rfl
    · intro hsent
      by_cases h1 : f.func.any isspace = true
      · rw [c1 peer u f num n h1] at hsent; exact absurd rfl hsent
      · have h1 : f.func.any isspace = false := by simpa using h1
        by_cases h2 : Double.le f.up f.low = true
        · rw [c2 peer u f num n h1 h2] at hsent; exact absurd rfl hsent
        · have h2 : Double.le f.up f.low = false := by simpa using h2
          by_cases h3 : f.seg ≤ 0
          · rw [c3 peer u f num n h1 h2 h3] at hsent; exact absurd rfl hsent
          · have h3 : 0 < f.seg := by omega
            by_cases h4 : f.thr ≤ 0
            · rw [c4 peer u f num n h1 h2 h3 h4] at hsent; exact absurd rfl hsent
            · have h4 : 0 < f.thr := by omega
              by_cases h5 : f.seg % f.thr = 0
              · exact ⟨h1, h2, h3, h4, h5⟩
              · rw [c5 peer u f num n h1 h2 h3 h4 h5] at hsent; exact absurd rfl hsent
  · intro peer u n
    have s1 : split_by_char "sin(x),5,2,4,2".toList ',' =
        ["sin(x)".toList, "5".toList, "2".toList, "4".toList, "2".toList] := by decide
    have s2 : split_by_char "x,0,1,5,2".toList ',' =
        ["x".toList, "0".toList, "1".toList, "5".toList, "2".toList] := by decide
    have a1 : Server.check_syntax u
        ["sin(x)".toList, "5".toList, "2".toList, "4".toList, "2".toList] 5 = true := by
      rw [server_check_syntax_indep u ⟨[], Double.nan, 0, 0⟩]
      decide
    have a2 : Server.check_syntax u
        ["x".toList, "0".toList, "1".toList, "5".toList, "2".toList] 5 = true := by
      rw [server_check_syntax_indep u ⟨[], Double.nan, 0, 0⟩]
      decide
    have p1 : Client.parse_fields u
        ["sin(x)".toList, "5".toList, "2".toList, "4".toList, "2".toList] =
        ⟨"sin(x)".toList, Double.fin 5629499534213120 (-50),
          Double.fin 4503599627370496 (-51), 4, 2⟩ := by
      rw [client_parse_fields_eq, server_parse_fields_indep u ⟨[], Double.nan, 0, 0⟩ _ _ _ _ _ a1]
      decide
    have p2 : Client.parse_fields u
        ["x".toList, "0".toList, "1".toList, "5".toList, "2".toList] =
        ⟨"x".toList, Double.fin 0 0, Double.fin 4503599627370496 (-52), 5, 2⟩ := by
      rw [client_parse_fields_eq, server_parse_fields_indep u ⟨[], Double.nan, 0, 0⟩ _ _ _ _ _ a2]
      decide
    rw [s1, s2, p1, p2, client_check_syntax_five, client_check_syntax_five]
    refine ⟨a1, ?_, a2, ?_⟩
    · exact c2 peer u _ 5 n (by decide) (by decide)
    · exact c5 peer u _ 5 n (by decide) (by decide) (by decide) (by decide) (by decide)

theorem diag_spaces_text (n : Int) :
    Client.diag Client.msg_spaces n =
      "intclient: spaces not permitted in expression (line ".toList ++ sprintf_d n ++
        ")\n".toList := rfl

theorem diag_bounds_text (n : Int) :
    Client.diag Client.msg_bounds n =
      "intclient: upper bound must be greater than lower bound (line ".toList ++ sprintf_d n ++
        ")\n".toList := rfl

theorem diag_segments_text (n : Int) :
    Client.diag Client.msg_segments n =
      "intclient: segments must be a positive integer (line ".toList ++ sprintf_d n ++
        ")\n".toList := rfl

theorem diag_threads_text (n : Int) :
    Client.diag Client.msg_threads n =
      "intclient: threads must be a positive integer (line ".toList ++ sprintf_d n ++
        ")\n".toList := rfl

theorem diag_multiple_text (n : Int) :
    Client.diag Client.msg_multiple n =
      "intclient: segments must be an integer multiple of threads (line ".toList ++
        sprintf_d n ++ ")\n".toList := rfl

theorem diag_bad_text (func : List Char) (n : Int) :
    Client.diag (Client.msg_bad func) n =
      "intclient: bad expression \"".toList ++ func ++ "\" (line ".toList ++ sprintf_d n ++
        ")\n".toList := by
  simp only [Client.diag, Client.msg_bad, List.append_assoc]
  rfl

theorem validation_request_text (u : Uninit) (func : List Char) :
    Client.make_validation_request u func =
      "GET /validate/".toList ++ func ++ " HTTP/1.1\r\n\r\n".toList := by
  simp only [Client.make_validation_request, Client.construct_http_request, List.append_assoc]
  rfl

/-- C2: the client's `check_validity` applies its checks in the order white
space in the function, `up <= low`, `seg <= 0`, `thr <= 0`, `seg % thr != 0`,
remote expression check. The first check that fails decides: the call returns
false having written exactly that check's diagnostic, with the text of the
source and `(line n)`, and having sent no request:
`intclient: spaces not permitted in expression (line n)`,
`intclient: upper bound must be greater than lower bound (line n)`,
`intclient: segments must be a positive integer (line n)`,
`intclient: threads must be a positive integer (line n)`,
`intclient: segments must be an integer multiple of threads (line n)`.
The request `GET /validate/<func> HTTP/1.1` is sent only when the five local
checks pass, and then exactly once; `intclient: bad expression "<func>"
(line n)` is written exactly when `check_func` returns false. The jobs
`sin(x),5,2,4,2` and `x,0,1,5,2` pass `check_syntax` and are rejected with the
bounds and the multiple diagnostics, no request being sent; on line 3 of a
job file `read_file` writes for them
`intclient: upper bound must be greater than lower bound (line 3)` and
`intclient: segments must be an integer multiple of threads (line 3)`. The
texts of the six diagnostics differ from one another. -/
theorem client_check_validity_first_failing_check :
    (∀ (peer : Client.Peer) (u : Uninit) (f : Fields) (num : Nat) (n : Int),
      (f.func.any isspace = true →
        Client.check_validity peer u f num n =
          ⟨.ret false,
            ["intclient: spaces not permitted in expression (line ".toList ++ sprintf_d n ++
              ")\n".toList], []⟩) ∧
      (f.func.any isspace = false → Double.le f.up f.low = true →
        Client.check_validity peer u f num n =
          ⟨.ret false,
            ["intclient: upper bound must be greater than lower bound (line ".toList ++
              sprintf_d n ++ ")\n".toList], []⟩) ∧
      (f.func.any isspace = false → Double.le f.up f.low = false → f.seg ≤ 0 →
        Client.check_validity peer u f num n =
          ⟨.ret false,
            ["intclient: segments must be a positive integer (line ".toList ++ sprintf_d n ++
              ")\n".toList], []⟩) ∧
      (f.func.any isspace = false → Double.le f.up f.low = false → 0 < f.seg → f.thr ≤ 0 →
        Client.check_validity peer u f num n =
          ⟨.ret false,
            ["intclient: threads must be a positive integer (line ".toList ++ sprintf_d n ++
              ")\n".toList], []⟩) ∧
      (f.func.any isspace = false → Double.le f.up f.low = false → 0 < f.seg → 0 < f.thr →
        f.seg % f.thr ≠ 0 →
        Client.check_validity peer u f num n =
          ⟨.ret false,
            ["intclient: segments must be an integer multiple of threads (line ".toList ++
              sprintf_d n ++ ")\n".toList], []⟩) ∧
      (f.func.any isspace = false → Double.le f.up f.low = false → 0 < f.seg → 0 < f.thr →
        f.seg % f.thr = 0 →
        (Client.check_validity peer u f num n).sent =
          ["GET /validate/".toList ++ f.func ++ " HTTP/1.1\r\n\r\n".toList] ∧
        ((Client.check_func peer u f.func).out = .ret true →
          Client.check_validity peer u f num n =
            ⟨.ret true, [], ["GET /validate/".toList ++ f.func ++ " HTTP/1.1\r\n\r\n".toList]⟩) ∧
        ((Client.check_func peer u f.func).out = .ret false →
          Client.check_validity peer u f num n =
            ⟨.ret false,
              ["intclient: bad expression \"".toList ++ f.func ++ "\" (line ".toList ++
                sprintf_d n ++ ")\n".toList],
              ["GET /validate/".toList ++ f.func ++ " HTTP/1.1\r\n\r\n".toList]⟩) ∧
        (∀ code, (Client.check_func peer u f.func).out = .exit code →
          (Client.check_validity peer u f num n).out = .exit code)) ∧
      ((Client.check_validity peer u f num n).out = .ret false →
        (Client.check_validity peer u f num n).stderr.length = 1) ∧
      ((Client.check_validity peer u f num n).sent ≠ [] →
        f.func.any isspace = false ∧ Double.le f.up f.low = false ∧ 0 < f.seg ∧ 0 < f.thr ∧
          f.seg % f.thr = 0)) ∧
    (∀ (peer : Client.Peer) (u : Uninit) (n : Int),
      Client.check_syntax u (split_by_char "sin(x),5,2,4,2".toList ',') 5 = true ∧
      Client.check_validity peer u
          (Client.parse_fields u (split_by_char "sin(x),5,2,4,2".toList ',')) 5 n =
        ⟨.ret false,
          ["intclient: upper bound must be greater than lower bound (line ".toList ++
            sprintf_d n ++ ")\n".toList], []⟩ ∧
      Client.check_syntax u (split_by_char "x,0,1,5,2".toList ',') 5 = true ∧
      Client.check_validity peer u
          (Client.parse_fields u (split_by_char "x,0,1,5,2".toList ',')) 5 n =
        ⟨.ret false,
          ["intclient: segments must be an integer multiple of threads (line ".toList ++
            sprintf_d n ++ ")\n".toList], []⟩) ∧
    (∀ (peer : Client.Peer) (u : Uninit),
      Client.read_line peer u "sin(x),5,2,4,2\n".toList 3 =
        ⟨.ret (),
          ["intclient: upper bound must be greater than lower bound (line 3)\n".toList], []⟩ ∧
      Client.read_line peer u "x,0,1,5,2\n".toList 3 =
        ⟨.ret (),
          ["intclient: segments must be an integer multiple of threads (line 3)\n".toList],
          []⟩) ∧
    ["intclient: spaces not permitted in expression (line ".toList,
      "intclient: upper bound must be greater than lower bound (line ".toList,
      "intclient: segments must be a positive integer (line ".toList,
      "intclient: threads must be a positive integer (line ".toList,
      "intclient: segments must be an integer multiple of threads (line ".toList,
      "intclient: bad expression \"".toList].Nodup := by
  obtain ⟨hgen, hex⟩ := client_check_validity_cases
  refine ⟨?_, ?_, ?_, by decide⟩
  · intro peer u f num n
    have h := hgen peer u f num n
    simp only [diag_spaces_text, diag_bounds_text, diag_segments_text, diag_threads_text,
      diag_multiple_text, diag_bad_text, validation_request_text] at h
    exact h
  · intro peer u n
    have h := hex peer u n
    simp only [diag_bounds_text, diag_multiple_text] at h
    exact h
  · intro peer u
    obtain ⟨a1, v1, a2, v2⟩ := hex peer u 3
    have l1 : (split_by_char "sin(x),5,2,4,2\n".toList '\n').getD 0 [] =
        "sin(x),5,2,4,2".toList := by decide
    have l2 : (split_by_char "x,0,1,5,2\n".toList '\n').getD 0 [] = "x,0,1,5,2".toList := by
      decide
    have n1 : (split_by_char "sin(x),5,2,4,2".toList ',').length = 5 := by decide
    have n2 : (split_by_char "x,0,1,5,2".toList ',').length = 5 := by decide
    have t1 : Client.diag Client.msg_bounds 3 =
        "intclient: upper bound must be greater than lower bound (line 3)\n".toList := by decide
    have t2 : Client.diag Client.msg_multiple 3 =
        "intclient: segments must be an integer multiple of threads (line 3)\n".toList := by
      decide
    constructor
    · unfold Client.read_line
      rw [if_neg (by decide)]
      simp only [l1, n1, a1, v1, t1]
      rfl
    · unfold Client.read_line
      rw [if_neg (by decide)]
      simp only [l2, n2, a2, v2, t2]
      rfl

/-- C3: when `check_syntax` (server or client) accepts a five-field record,
fields 4 and 5 are converted by `%d` to a value in the 32-bit signed range,
read to their end, and `sprintf` with `%d` renders the parsed value as the
original text, which holds only decimal digits and `-`; hence a record whose
field 4 or 5 is `007`, `+5`, `-0`, has
white space before or after the digits, has trailing characters, or is
outside the 32-bit range is rejected whatever the other fields are. The
record `x,0,2,4,2` is accepted. -/
theorem check_syntax_integers_canonical :
    (∀ (u : Uninit) (fields : List (List Char)), fields.length = 5 →
      ( Server.check_syntax u fields 5 = true ∨ Client.check_syntax u fields 5 = true) →
      (INT_MIN ≤ (Server.parse_fields u fields).seg ∧
        (Server.parse_fields u fields).seg ≤ INT_MAX ∧
        scan_d (fields.getD 3 []) =
          .ok (Server.parse_fields u fields).seg (fields.getD 3 []).length ∧
        sprintf_d (Server.parse_fields u fields).seg = fields.getD 3 []) ∧
      (INT_MIN ≤ (Server.parse_fields u fields).thr ∧
        (Server.parse_fields u fields).thr ≤ INT_MAX ∧
        scan_d (fields.getD 4 []) =
          .ok (Server.parse_fields u fields).thr (fields.getD 4 []).length ∧
        sprintf_d (Server.parse_fields u fields).thr = fields.getD 4 []) ∧
      (∀ c ∈ fields.getD 3 [], isdigit c = true ∨ c = '-') ∧
      (∀ c ∈ fields.getD 4 [], isdigit c = true ∨ c = '-') ∧
      Client.parse_fields u fields = Server.parse_fields u fields) ∧
    (∀ (u : Uninit) (a b c x t : List Char),
      t ∈ ["007".toList, "+5".toList, "-0".toList, " 5".toList, "5 ".toList, "4x".toList,
        "2147483648".toList, "-2147483649".toList, "3000000000".toList,
        "99999999999999999999".toList, "1.0".toList, "0x10".toList] →
      Server.check_syntax u [a, b, c, t, x] 5 = false ∧
      Server.check_syntax u [a, b, c, x, t] 5 = false ∧
      Client.check_syntax u [a, b, c, t, x] 5 = false ∧
      Client.check_syntax u [a, b, c, x, t] 5 = false) ∧
    (∀ u : Uninit,
      Server.check_syntax u ["x".toList, "0".toList, "2".toList, "4".toList, "2".toList] 5
        = true ∧
      Client.check_syntax u ["x".toList, "0".toList, "2".toList, "4".toList, "2".toList] 5
        = true) := by
  refine ⟨?_, ?_, ?_⟩
  · intro u fields hlen h
    obtain ⟨a, b, c, d, e, rfl⟩ := length_five fields hlen
    have hs := either_check_syntax_five u a b c d e h
    obtain ⟨_, _, ⟨hd, fd⟩, ⟨he, fe⟩⟩ := server_check_syntax_five_true u a b c d e hs
    obtain ⟨v, n, hv, hn, hvd⟩ := int_field_ok_spec u d hd fd
    obtain ⟨w, m, hw, hm, hwe⟩ := int_field_ok_spec u e he fe
    have rv := scan_d_range d v n hv
    have rw' := scan_d_range e w m hw
    have hseg : (Server.parse_fields u [a, b, c, d, e]).seg = v := by
      simp [Server.parse_fields, hv]
    have hthr : (Server.parse_fields u [a, b, c, d, e]).thr = w := by
      simp [Server.parse_fields, hw]
    rw [hseg, hthr]
    refine ⟨⟨rv.1, rv.2, ?_, ?_⟩, ⟨rw'.1, rw'.2, ?_, ?_⟩, ?_, ?_, client_parse_fields_eq ▸ rfl⟩
    · simp [hv, hn]
    · simp [← hvd]
    · simp [hw, hm]
    · simp [← hwe]
    · intro ch hch
      simp only [List.getD_cons_succ, List.getD_cons_zero] at hch
      rw [hvd] at hch
      exact sprintf_d_chars v ch hch
    · intro ch hch
      simp only [List.getD_cons_succ, List.getD_cons_zero] at hch
      rw [hwe] at hch
      exact sprintf_d_chars w ch hch
  · intro u a b c x t ht
    have hbad : canonical_d t = false := by
      revert t
      decide
    have key : ∀ p q r s w : List Char, (s = t ∨ w = t) →
        Server.check_syntax u [p, q, r, s, w] 5 = false := by
      intro p q r s w hsw
      cases hc : Server.check_syntax u [p, q, r, s, w] 5 with
      | false => rfl
      | true =>
        obtain ⟨_, _, ⟨hd, fd⟩, ⟨he, fe⟩⟩ := server_check_syntax_five_true u p q r s w hc
        rcases hsw with h | h
        · subst h
          have := int_field_ok_canonical u s hd fd
          rw [hbad] at this
          exact Bool.noConfusion this
        · subst h
          have := int_field_ok_canonical u w he fe
          rw [hbad] at this
          exact Bool.noConfusion this
    refine ⟨key _ _ _ _ _ (Or.inl rfl), key _ _ _ _ _ (Or.inr rfl), ?_, ?_⟩
    · rw [client_check_syntax_five]
      exact key _ _ _ _ _ (Or.inl rfl)
    · rw [client_check_syntax_five]
      exact key _ _ _ _ _ (Or.inr rfl)
  · intro u
    rw [client_check_syntax_five, server_check_syntax_five]
    simp only [and_self]
    have e1 : Server.float_field_ok u "0".toList = true := by
      simp only [Server.float_field_ok, show scan_lf "0".toList = .ok (Double.fin 0 0) 1 by decide]
      decide
    have e2 : Server.float_field_ok u "2".toList = true := by
      simp only [Server.float_field_ok,
        show scan_lf "2".toList = .ok (Double.fin 4503599627370496 (-51)) 1 by decide]
      decide
    have e3 : Server.int_field_ok u "4".toList = true := by
      simp only [Server.int_field_ok, show scan_d "4".toList = .ok 4 1 by decide]
      decide
    have e4 : Server.int_field_ok u "2".toList = true := by
      simp only [Server.int_field_ok, show scan_d "2".toList = .ok 2 1 by decide]
      decide
    rw [e1, e2, e3, e4]
    decide

/-- C4 as stated fails: both versions of `check_syntax` accept the record
`x,-3000000000,1,4,2`; field 2 is read to its end as the double
`-3000000000`, whose magnitude is greater than `2147483647`. -/
theorem check_syntax_accepts_bound_below_int_range :
    Server.check_syntax ⟨[], Double.nan, 0, 0⟩
      ["x".toList, "-3000000000".toList, "1".toList, "4".toList, "2".toList] 5 = true ∧
    Client.check_syntax ⟨[], Double.nan, 0, 0⟩
      ["x".toList, "-3000000000".toList, "1".toList, "4".toList, "2".toList] 5 = true ∧
    scan_lf "-3000000000".toList = .ok (Double.fin (-6291456000000000) (-21)) 11 ∧
    Double.le (Double.fin (-6291456000000000) (-21)) (Double.ofInt (-3000000000)) = true ∧
    Double.le (Double.ofInt (-3000000000)) (Double.fin (-6291456000000000) (-21)) = true ∧
    within_int_magnitude (Double.fin (-6291456000000000) (-21)) = false := by
  decide

/-- C4 as amended: when `check_syntax` (server or client) accepts a
five-field record, fields 2 and 3 are converted by `%lf` and read to their
end, and the parsed value is not greater than `INT_MAX` (the comparison
`d > INT_MAX` is false). Only the upper side is limited: `3000000000` is
rejected as either bound whatever the other fields are, and the record
`x,-3000000000,1,4,2` is accepted. -/
theorem check_syntax_bounds_read_entirely :
    (∀ (u : Uninit) (fields : List (List Char)), fields.length = 5 →
      ( Server.check_syntax u fields 5 = true ∨ Client.check_syntax u fields 5 = true) →
      (scan_lf (fields.getD 1 []) =
          .ok (Server.parse_fields u fields).low (fields.getD 1 []).length ∧
        Double.gt (Server.parse_fields u fields).low (Double.ofInt INT_MAX) = false) ∧
      (scan_lf (fields.getD 2 []) =
          .ok (Server.parse_fields u fields).up (fields.getD 2 []).length ∧
        Double.gt (Server.parse_fields u fields).up (Double.ofInt INT_MAX) = false) ∧
      Client.parse_fields u fields = Server.parse_fields u fields) ∧
    (∀ (u : Uninit) (a c d e : List Char),
      Server.check_syntax u [a, "3000000000".toList, c, d, e] 5 = false ∧
      Server.check_syntax u [a, c, "3000000000".toList, d, e] 5 = false ∧
      Client.check_syntax u [a, "3000000000".toList, c, d, e] 5 = false ∧
      Client.check_syntax u [a, c, "3000000000".toList, d, e] 5 = false) ∧
    Server.check_syntax ⟨[], Double.nan, 0, 0⟩
      ["x".toList, "-3000000000".toList, "1".toList, "4".toList, "2".toList] 5 = true ∧
    Client.check_syntax ⟨[], Double.nan, 0, 0⟩
      ["x".toList, "-3000000000".toList, "1".toList, "4".toList, "2".toList] 5 = true := by
  refine ⟨?_, ?_, by decide, by decide⟩
  · intro u fields hlen h
    obtain ⟨a, b, c, d, e, rfl⟩ := length_five fields hlen
    have hs := either_check_syntax_five u a b c d e h
    obtain ⟨⟨hb, fb⟩, ⟨hc, fc⟩, _, _⟩ := server_check_syntax_five_true u a b c d e hs
    obtain ⟨v, n, hv, hn, hvd⟩ := float_field_ok_spec u b hb fb
    obtain ⟨w, m, hw, hm, hwe⟩ := float_field_ok_spec u c hc fc
    have hlow : (Server.parse_fields u [a, b, c, d, e]).low = v := by
      simp [Server.parse_fields, hv]
    have hup : (Server.parse_fields u [a, b, c, d, e]).up = w := by
      simp [Server.parse_fields, hw]
    rw [hlow, hup]
    refine ⟨⟨?_, hvd⟩, ⟨?_, hwe⟩, client_parse_fields_eq ▸ rfl⟩
    · simp [hv, hn]
    · simp [hw, hm]
  · intro u a c d e
    have hbig : Server.float_field_ok u "3000000000".toList = false := by
      simp only [Server.float_field_ok,
        show scan_lf "3000000000".toList = .ok (Double.fin 6291456000000000 (-21)) 10 by decide]
      decide
    have key1 : Server.check_syntax u [a, "3000000000".toList, c, d, e] 5 = false := by
      rw [server_check_syntax_five, hbig]
      simp
    have key2 : Server.check_syntax u [a, c, "3000000000".toList, d, e] 5 = false := by
      rw [server_check_syntax_five, hbig]
      simp
    refine ⟨key1, key2, ?_, ?_⟩
    · rw [client_check_syntax_five]
      exact key1
    · rw [client_check_syntax_five]
      exact key2

/-- C5 (the code departs from it): with a successful parse and method `GET`,
`check_type` returns `VALIDATE` for the targets `/val`, `/`, the empty target
and `/validate/`, and `INTEGRATE` for `/integ` and `/integrate/`: for each
`sscanf` returns `EOF`, which the `if` takes as true. For `/foo` and for the
method `POST` it returns 0. For the target `/val` the server's `check_func`
then compiles the buffer `sscanf` did not write. -/
theorem check_type_accepts_proper_prefixes :
    (Server.check_type 1 "GET".toList "/val".toList = Server.VALIDATE ∧
      Server.check_type 1 "GET".toList "/".toList = Server.VALIDATE ∧
      Server.check_type 1 "GET".toList "".toList = Server.VALIDATE ∧
      Server.check_type 1 "GET".toList "/validate/".toList = Server.VALIDATE ∧
      Server.check_type 1 "GET".toList "/integ".toList = Server.INTEGRATE ∧
      Server.check_type 1 "GET".toList "/integrate/".toList = Server.INTEGRATE ∧
      Server.check_type 1 "GET".toList "/foo".toList = 0 ∧
      Server.check_type 1 "POST".toList "/validate/x".toList = 0 ∧
      Server.check_type 1 "GET".toList "/validate/x".toList = Server.VALIDATE ∧
      Server.check_type 1 "GET".toList "/integrate/x/0/1/4/2".toList = Server.INTEGRATE ∧
      (scan_lit_s "/validate/".toList "/val".toList).ret = -1) ∧
    (∀ (te_compile : List Char → Bool) (u : Uninit),
      Server.check_func te_compile u "/val".toList = te_compile u.buf) := by
  refine ⟨by decide, ?_⟩
  intro te_compile u
  have hs : scan_lit_s "/validate/".toList "/val".toList = .eof := by decide
  unfold Server.check_func
  rw [hs]
  simp [Server.valid_func]

/-- C6 (the code departs from it): on a stream of two requests without
headers, each a request line and the blank line `\r\n`, `read_request` does
not stop at the first blank line; it reads all four lines and returns `NULL`.
It returns the two lines only when the stream ends after them, or when the
blank line is a bare `\n`. -/
theorem read_request_misses_crlf_blank_line :
    Server.read_request
        "GET /validate/x HTTP/1.1\r\n\r\nGET /validate/y HTTP/1.1\r\n\r\n".toList =
      some (none, []) ∧
    Server.read_request "GET /validate/x HTTP/1.1\r\n\r\nGET /validate/y HTTP/1.1\r\n".toList =
      some (some "GET /validate/x HTTP/1.1\r\n\r\nGET /validate/y HTTP/1.1\r\n".toList, []) ∧
    Server.read_request "GET /validate/x HTTP/1.1\r\n\r\n".toList =
      some (some "GET /validate/x HTTP/1.1\r\n\r\n".toList, []) ∧
    Server.read_request "GET /validate/x HTTP/1.1\r\n\nGET /validate/y HTTP/1.1\r\n\n".toList =
      some (some "GET /validate/x HTTP/1.1\r\n\n".toList,
        "GET /validate/y HTTP/1.1\r\n\n".toList) := by
  decide

/-- C7 (the code departs from it): with the header `Content-Length: 3`
on line 2, `read_request` reads the body line by line up to the next blank
line, not 3 bytes: here it returns the body `abc` together with the whole
next request, and when the stream ends after `abc` it returns no body. -/
theorem read_request_ignores_content_length :
    Server.read_request
        "GET / HTTP/1.1\r\nContent-Length: 3\r\n\r\nabcGET / HTTP/1.1\r\n\r\nrest\n".toList =
      some (some
        "GET / HTTP/1.1\r\nContent-Length: 3\r\n\r\nabcGET / HTTP/1.1\r\n\r\n".toList,
        "rest\n".toList) ∧
    Server.read_request "GET / HTTP/1.1\r\nContent-Length: 3\r\n\r\nabc".toList =
      some (some "GET / HTTP/1.1\r\nContent-Length: 3\r\n\r\n".toList, []) := by
  decide

/-- On every stream `client_thread` runs to its end, and what it does is
a sequence of exchanges: each request that `read_request` returns is followed
by exactly one response, after which the next request is read from what is
left of the same stream; when `read_request` returns `NULL` nothing is sent
and the loop ends with the connection closed. The response is `200 OK`
exactly when `check_type` gives `VALIDATE` and `check_func` accepts, or
`check_type` gives `INTEGRATE` and `check_integrate` accepts; otherwise it is
`400 Bad Request`; it never has headers or a body. For a `GET` of
`/validate/<text>` that is: `200` exactly when tinyexpr compiles the text; for
a `GET` of `/integrate/<text>`: `200` exactly when `check_integrate` accepts
the target; a failed parse or another method gives `400`. On a stream of two
requests (blank line a bare `\n`), `/integrate/x*x/0/2/4/2` is answered
`200 OK` when tinyexpr compiles `x*x`, and `/integrate/x*x/0/2/4/3` then
`400 Bad Request`, before the connection is closed. -/
theorem client_thread_exchanges_spec :
    (∀ (te_compile : List Char → Bool) (u : Uninit) (parse : List Char → Server.HttpRequest)
      (f : List Char),
      (∃ reqs, Server.client_thread te_compile u parse f =
        some (exchanges te_compile u parse reqs)) ∧
      (∀ rest, Server.read_request f = some (none, rest) →
        Server.client_thread te_compile u parse f = some [Server.Event.close]) ∧
      (∀ req rest, Server.read_request f = some (some req, rest) →
        ∃ evs, Server.client_thread te_compile u parse rest = some evs ∧
          Server.client_thread te_compile u parse f =
            some (Server.Event.request req ::
              Server.Event.response (Server.respond te_compile u parse req) :: evs))) ∧
    (∀ (te_compile : List Char → Bool) (u : Uninit) (parse : List Char → Server.HttpRequest)
      (req : List Char),
      (Server.respond te_compile u parse req = ⟨200, "OK".toList, none, none⟩ ∨
        Server.respond te_compile u parse req = ⟨400, "Bad Request".toList, none, none⟩) ∧
      ((Server.respond te_compile u parse req).stat = 200 ↔
        (Server.check_type (parse req).numRead (parse req).method (parse req).address =
            Server.VALIDATE ∧
          Server.check_func te_compile u (parse req).address = true) ∨
        (Server.check_type (parse req).numRead (parse req).method (parse req).address =
            Server.INTEGRATE ∧
          Server.check_integrate te_compile u (parse req).address = true))) ∧
    (∀ (te_compile : List Char → Bool) (u : Uninit) (parse : List Char → Server.HttpRequest)
      (req text : List Char), 0 < (parse req).numRead → (parse req).method = "GET".toList →
      text ≠ [] → text.any isspace = false →
      ((parse req).address = "/validate/".toList ++ text →
        ((Server.respond te_compile u parse req).stat = 200 ↔ te_compile text = true)) ∧
      ((parse req).address = "/integrate/".toList ++ text →
        ((Server.respond te_compile u parse req).stat = 200 ↔
          Server.check_integrate te_compile u ("/integrate/".toList ++ text) = true))) ∧
    (∀ (te_compile : List Char → Bool) (u : Uninit) (parse : List Char → Server.HttpRequest)
      (req : List Char), ((parse req).numRead ≤ 0 ∨ (parse req).method ≠ "GET".toList) →
      Server.respond te_compile u parse req = ⟨400, "Bad Request".toList, none, none⟩) ∧
    Server.client_thread (fun f => f == "x*x".toList) ⟨[], Double.nan, 0, 0⟩
        (fun req => ⟨1, req.takeWhile (fun c => c != ' '),
          ((req.dropWhile (fun c => c != ' ')).drop 1).takeWhile (fun c => c != ' ')⟩)
        "GET /integrate/x*x/0/2/4/2 HTTP/1.1\r\n\nGET /integrate/x*x/0/2/4/3 HTTP/1.1\r\n\n".toList =
      some [Server.Event.request "GET /integrate/x*x/0/2/4/2 HTTP/1.1\r\n\n".toList,
        Server.Event.response ⟨200, "OK".toList, none, none⟩,
        Server.Event.request "GET /integrate/x*x/0/2/4/3 HTTP/1.1\r\n\n".toList,
        Server.Event.response ⟨400, "Bad Request".toList, none, none⟩,
        Server.Event.close] := by
  have hvi : Server.VALIDATE ≠ Server.INTEGRATE := by decide
  refine ⟨?_, ?_, ?_, ?_, ?_⟩
  · intro te_compile u parse f
    refine ⟨client_thread_loop_exchanges te_compile u parse (f.length + 1) f (by omega), ?_, ?_⟩
    · intro rest hr
      simp only [Server.client_thread, Server.client_thread_loop, hr]
    · intro req rest hr
      have hlt := read_request_consumes f req rest hr
      obtain ⟨reqs, hreqs⟩ :=
        client_thread_loop_exchanges te_compile u parse (rest.length + 1) rest (by omega)
      refine ⟨exchanges te_compile u parse reqs, hreqs, ?_⟩
      simp only [Server.client_thread, Server.client_thread_loop, hr]
      rw [client_thread_loop_fuel te_compile u parse f.length (rest.length + 1) rest hlt
        (by omega), hreqs]
  · intro te_compile u parse req
    unfold Server.respond
    simp only
    by_cases hv : Server.check_type (parse req).numRead (parse req).method (parse req).address
        = Server.VALIDATE
    · rw [hv]
      cases hc : Server.check_func te_compile u (parse req).address <;> simp [hvi]
    · by_cases hi : Server.check_type (parse req).numRead (parse req).method
          (parse req).address = Server.INTEGRATE
      · rw [hi]
        cases hc : Server.check_integrate te_compile u (parse req).address <;>
          simp [hvi.symm]
      · simp [hv, hi]
  · intro te_compile u parse req text hn hm h1 h2
    refine ⟨?_, ?_⟩
    · intro ha
      unfold Server.respond
      simp only
      rw [hm, ha, check_type_validate _ text hn h1 h2, check_func_validate te_compile u text h1 h2]
      cases te_compile text <;> simp
    · intro ha
      unfold Server.respond
      simp only
      rw [hm, ha, check_type_integrate _ text hn h1 h2]
      cases Server.check_integrate te_compile u ("/integrate/".toList ++ text) <;>
        simp [hvi.symm]
  · intro te_compile u parse req h
    unfold Server.respond
    simp only
    rw [check_type_rejects _ _ _ h]
    simp [Server.VALIDATE, Server.INTEGRATE]
  · decide

/-- C8 (the code departs from it): on the stream of the two requests
`GET /validate/x` and `GET /val` the connection thread answers both with
`200 OK` when the buffer that `check_func` compiles still holds `x`: `/val`
is no validate target, and the claim has it answered `400 Bad Request`. For
every `GET` of `/val` the status is 200 exactly when tinyexpr compiles the
buffer that `sscanf` did not write, whatever the request says; with a buffer
that does not compile it is `400`. -/
theorem client_thread_answers_prefix_target :
    Server.client_thread (fun f => f == "x".toList) ⟨"x".toList, Double.nan, 0, 0⟩
        (fun req => ⟨1, req.takeWhile (fun c => c != ' '),
          ((req.dropWhile (fun c => c != ' ')).drop 1).takeWhile (fun c => c != ' ')⟩)
        "GET /validate/x HTTP/1.1\r\n\nGET /val HTTP/1.1\r\n\n".toList =
      some [Server.Event.request "GET /validate/x HTTP/1.1\r\n\n".toList,
        Server.Event.response ⟨200, "OK".toList, none, none⟩,
        Server.Event.request "GET /val HTTP/1.1\r\n\n".toList,
        Server.Event.response ⟨200, "OK".toList, none, none⟩,
        Server.Event.close] ∧
    Server.respond (fun f => f == "x".toList) ⟨[], Double.nan, 0, 0⟩
        (fun _ => ⟨1, "GET".toList, "/val".toList⟩) "GET /val HTTP/1.1\r\n\n".toList =
      ⟨400, "Bad Request".toList, none, none⟩ ∧
    (∀ (te_compile : List Char → Bool) (u : Uninit) (parse : List Char → Server.HttpRequest)
      (req : List Char), 0 < (parse req).numRead → (parse req).method = "GET".toList →
      (parse req).address = "/val".toList →
      ((Server.respond te_compile u parse req).stat = 200 ↔ te_compile u.buf = true)) := by
  refine ⟨by decide, by decide, ?_⟩
  intro te_compile u parse req hn hm ha
  have hs : scan_lit_s "/validate/".toList "/val".toList = .eof := by decide
  have ht : Server.check_type (parse req).numRead "GET".toList "/val".toList =
      Server.VALIDATE := by
    unfold Server.check_type
    rw [if_neg (by omega), if_neg (by simp), hs]
    simp [Scan.ret]
  have hc : Server.check_func te_compile u "/val".toList = te_compile u.buf := by
    unfold Server.check_func
    rw [hs]
    simp [Server.valid_func]
  unfold Server.respond
  simp only
  rw [hm, ha, ht, hc]
  cases te_compile u.buf <;> simp

/-- Once `read_response` has returned the reply `b` to `check_func`,
the outcome follows the parse: when `parse_HTTP_response` reports a parse (a
non-zero return) and the status is 200 the call returns true; with status
400 it returns false; with any other status, and when the reply does not
parse (return value 0), `intclient: communications error` is written and the
process ends with exit code 3. One request was sent in each case. -/
theorem check_func_follows_parse (peer : Client.Peer) (u : Uninit) (func b : List Char)
    (hread : (Client.read_response (peer.reply (Client.make_validation_request u func))).out =
      .ret (some b)) :
    ((peer.parse_HTTP_response b).1 ≠ 0 → (peer.parse_HTTP_response b).2 = 200 →
      Client.check_func peer u func =
        ⟨.ret true, [], [Client.make_validation_request u func]⟩) ∧
    ((peer.parse_HTTP_response b).1 ≠ 0 → (peer.parse_HTTP_response b).2 = 400 →
      Client.check_func peer u func =
        ⟨.ret false, [], [Client.make_validation_request u func]⟩) ∧
    ((peer.parse_HTTP_response b).1 ≠ 0 → (peer.parse_HTTP_response b).2 ≠ 200 →
      (peer.parse_HTTP_response b).2 ≠ 400 →
      Client.check_func peer u func =
        ⟨.exit 3, ["intclient: communications error\n".toList],
          [Client.make_validation_request u func]⟩) ∧
    ((peer.parse_HTTP_response b).1 = 0 →
      Client.check_func peer u func =
        ⟨.exit 3, ["intclient: communications error\n".toList],
          [Client.make_validation_request u func]⟩) := by
  have hst := read_response_stderr _ _ hread
  unfold Client.check_func
  simp only [hread, hst, Client.check_reply]
  refine ⟨?_, ?_, ?_, ?_⟩
  · intro h1 h2
    simp [h1, h2]
  · intro h1 h2
    simp [h1, h2]
  · intro h1 h2 h3
    simp [h1, h2, h3, Client.COMMS, Client.comms_error]
  · intro h1
    simp [h1, Client.COMMS, Client.comms_error]

/-- The loop of `read_response` ends on every stream: the fuel it is given
is enough. -/
theorem read_response_loop_total (fuel : Nat) (st : ReadState) (f : List Char)
    (h : f.length < fuel) : Client.read_response_loop fuel st f ≠ none := by
  induction fuel generalizing st f with
  | zero => omega
  | succ k ih =>
    unfold Client.read_response_loop
    cases hg : fgets MAX_LINE f with
    | none => simp
    | some r =>
      obtain ⟨temp, rest1, eof⟩ := r
      have hlt := fgets_length_lt f temp rest1 eof hg
      simp only
      split_ifs
      all_goals first
        | exact ih _ _ (by omega)
        | simp

/-- C9 (the code departs from it): the reply
`HTTP/1.1 200 OK`, `X-Info: y`, blank line parses with status 200, and
`check_func` does not return true: `read_response` finds the blank line with
no `Content-Length` value read from line 2, writes
`intclient: communications error` and ends the process with exit code 3. With
status 400 the same reply also ends the process instead of returning false.
On an empty reply `check_func` passes `NULL` to `strlen`. What does hold: when
`read_response` returns the reply to `check_func`, status 200 gives true,
status 400 gives false, any other status and a reply that does not parse give
the communications error and exit code 3. -/
theorem client_check_func_refuses_reply_with_header :
    Client.check_func
        ⟨fun _ => "HTTP/1.1 200 OK\r\nX-Info: y\r\n\r\n".toList, fun _ => (30, 200)⟩
        ⟨[], Double.nan, 0, 0⟩ "x".toList =
      ⟨.exit 3, ["intclient: communications error\n".toList],
        ["GET /validate/x HTTP/1.1\r\n\r\n".toList]⟩ ∧
    Client.check_func
        ⟨fun _ => "HTTP/1.1 400 Bad Request\r\nX-Info: y\r\n\r\n".toList, fun _ => (39, 400)⟩
        ⟨[], Double.nan, 0, 0⟩ "x".toList =
      ⟨.exit 3, ["intclient: communications error\n".toList],
        ["GET /validate/x HTTP/1.1\r\n\r\n".toList]⟩ ∧
    Client.check_func ⟨fun _ => [], fun _ => (0, 0)⟩ ⟨[], Double.nan, 0, 0⟩ "x".toList =
      ⟨.fault, [], ["GET /validate/x HTTP/1.1\r\n\r\n".toList]⟩ ∧
    Client.check_func ⟨fun _ => "HTTP/1.1 200 OK\r\n\r\n".toList, fun _ => (19, 200)⟩
        ⟨[], Double.nan, 0, 0⟩ "x".toList =
      ⟨.ret true, [], ["GET /validate/x HTTP/1.1\r\n\r\n".toList]⟩ ∧
    (∀ (peer : Client.Peer) (u : Uninit) (func b : List Char),
      (Client.read_response (peer.reply (Client.make_validation_request u func))).out =
        .ret (some b) →
      ((peer.parse_HTTP_response b).1 ≠ 0 → (peer.parse_HTTP_response b).2 = 200 →
        Client.check_func peer u func =
          ⟨.ret true, [], ["GET /validate/".toList ++ func ++ " HTTP/1.1\r\n\r\n".toList]⟩) ∧
      ((peer.parse_HTTP_response b).1 ≠ 0 → (peer.parse_HTTP_response b).2 = 400 →
        Client.check_func peer u func =
          ⟨.ret false, [], ["GET /validate/".toList ++ func ++ " HTTP/1.1\r\n\r\n".toList]⟩) ∧
      ((peer.parse_HTTP_response b).1 ≠ 0 → (peer.parse_HTTP_response b).2 ≠ 200 →
        (peer.parse_HTTP_response b).2 ≠ 400 →
        Client.check_func peer u func =
          ⟨.exit 3, ["intclient: communications error\n".toList],
            ["GET /validate/".toList ++ func ++ " HTTP/1.1\r\n\r\n".toList]⟩) ∧
      ((peer.parse_HTTP_response b).1 = 0 →
        Client.check_func peer u func =
          ⟨.exit 3, ["intclient: communications error\n".toList],
            ["GET /validate/".toList ++ func ++ " HTTP/1.1\r\n\r\n".toList]⟩)) ∧
    (∀ f : List Char, (Client.read_response f).out ≠ .fault) := by
  refine ⟨by decide, by decide, by decide, by decide, ?_, ?_⟩
  · intro peer u func b hread
    have h := check_func_follows_parse peer u func b hread
    simp only [validation_request_text] at h
    exact h
  · intro f
    unfold Client.read_response
    have ht := read_response_loop_total (f.length + 1)
      { buffer := none, lineNum := 0, contLen := Client.NO_BODY, body := false, broken := false }
      f (by omega)
    split
    · next hn => exact absurd hn ht
    · simp
    · simp

/-- C10: a record of fewer than five fields is rejected by both versions of
`check_syntax`, whatever the fields hold; and for a job-file line, neither
comment nor blank, whose text before the newline splits at `,` into fewer
than five fields, the body of the loop of `read_file` writes
`intclient: syntax error on line N` for its line number, sends nothing and
goes on to the next line. -/
theorem fewer_than_five_fields_syntax_error (peer : Client.Peer) (u : Uninit)
    (fields : List (List Char)) (line : List Char) (lineNum : Int)
    (hfields : fields.length < 5)
    (hc : Client.is_comment line = false) (he : Client.is_empty line = false)
    (hline : (split_by_char ((split_by_char line '\n').getD 0 []) ',').length < 5) :
    Server.check_syntax u fields fields.length = false ∧
    Client.check_syntax u fields fields.length = false ∧
    Client.read_line peer u line lineNum =
      ⟨.ret (), ["intclient: syntax error on line ".toList ++ sprintf_d lineNum ++ "\n".toList],
        []⟩ ∧
    (∀ (fuel : Nat) (f rest : List Char) (eof : Bool) (m : Int),
      fgets MAX_LINE f = some (line, rest, eof) →
      Client.read_file_loop peer u (fuel + 1) f m =
        ⟨(Client.read_file_loop peer u fuel rest (m + 1)).out,
          ("intclient: syntax error on line ".toList ++ sprintf_d (m + 1) ++ "\n".toList) ::
            (Client.read_file_loop peer u fuel rest (m + 1)).stderr,
          (Client.read_file_loop peer u fuel rest (m + 1)).sent⟩) := by
  have hrl : ∀ n : Int, Client.read_line peer u line n =
      ⟨.ret (), [Client.syntax_error n], []⟩ := by
    intro n
    unfold Client.read_line
    simp only [hc, he, Bool.or_self, Bool.false_eq_true, if_false]
    rw [client_check_syntax_short u _ _ hline]
    simp
  refine ⟨server_check_syntax_short u fields _ hfields,
    client_check_syntax_short u fields _ hfields, hrl lineNum, ?_⟩
  intro fuel f rest eof m hg
  simp only [Client.read_file_loop, hg, hrl (m + 1)]
  simp [Client.syntax_error]

/-- C10 at the line `x,1` numbered 7. -/
theorem fewer_than_five_fields_syntax_error_witness :
    Client.read_line ⟨fun _ => [], fun _ => (0, 0)⟩ ⟨[], Double.nan, 0, 0⟩ "x,1\n".toList 7 =
      ⟨.ret (), ["intclient: syntax error on line 7\n".toList], []⟩ :=
  (fewer_than_five_fields_syntax_error ⟨fun _ => [], fun _ => (0, 0)⟩ ⟨[], Double.nan, 0, 0⟩
    ["x".toList, "1".toList] "x,1\n".toList 7 (by decide) (by decide) (by decide)
    (by decide)).2.2.1

set_option maxRecDepth 100000 in
/-- C11 as stated fails: a job file whose first line begins with `#` and is
1027 bytes long (`#`, 1022 times `a`, then `x,1` and the newline) is read in
two pieces; the second piece, `x,1`, is processed as a job line and reported
as `syntax error on line 2`. With `x,0,1,4,2` in its place the comment line
makes the client send a validation request. -/
theorem long_comment_line_is_processed :
    '\n' ∉ '#' :: (List.replicate 1022 'a' ++ "x,1".toList) ∧
    (Client.read_file ⟨fun _ => [], fun _ => (0, 0)⟩ ⟨[], Double.nan, 0, 0⟩
        ('#' :: (List.replicate 1022 'a' ++ "x,1\n".toList))).stderr =
      ["intclient: syntax error on line 2\n".toList] ∧
    (Client.read_file ⟨fun _ => "HTTP/1.1 200 OK\r\n\r\n".toList, fun _ => (19, 200)⟩
        ⟨[], Double.nan, 0, 0⟩
        ('#' :: (List.replicate 1022 'a' ++ "x,0,1,4,2\n".toList))).sent =
      ["GET /validate/x HTTP/1.1\r\n\r\n".toList] := by
  decide

/-- C11 as amended: the loop of `read_file` does nothing for a line that
`fgets` returns and that begins with `#` or holds only white space, and goes
on with the next line. On the bytes of a job file: a line that begins with
`#` and is at most 1023 bytes long with its newline, and a line of any length
that holds only white space, add no diagnostic and no request, and
`read_file` goes on with what follows the line (`term` is the newline and the
rest of the file, or empty at the end of the file). The file of a comment
line, two blank lines and the record `x,1` gives the one diagnostic
`syntax error on line 4`. -/
theorem read_file_skips_comment_and_blank_lines :
    (∀ (peer : Client.Peer) (u : Uninit) (line : List Char) (n : Int),
      (Client.is_comment line = true ∨ Client.is_empty line = true) →
      Client.read_line peer u line n = ⟨.ret (), [], []⟩) ∧
    (∀ (peer : Client.Peer) (u : Uninit) (fuel : Nat) (f line rest : List Char) (eof : Bool)
      (m : Int), fgets MAX_LINE f = some (line, rest, eof) →
      (Client.is_comment line = true ∨ Client.is_empty line = true) →
      Client.read_file_loop peer u (fuel + 1) f m =
        Client.read_file_loop peer u fuel rest (m + 1)) ∧
    (∀ (peer : Client.Peer) (u : Uninit) (body term : List Char) (m : Int) (fuel1 fuel2 : Nat),
      '\n' ∉ body → (term = [] ∨ term.head? = some '\n') → body.head? = some '#' →
      body.length < 1023 → (body ++ term).length < fuel1 → term.tail.length < fuel2 →
      Client.read_file_loop peer u fuel1 (body ++ term) m =
        Client.read_file_loop peer u fuel2 term.tail (m + 1)) ∧
    (∀ (peer : Client.Peer) (u : Uninit) (body term : List Char) (m : Int) (fuel1 fuel2 : Nat),
      '\n' ∉ body → (term = [] ∨ term.head? = some '\n') → body.all isspace = true →
      (body ++ term).length < fuel1 → term.tail.length < fuel2 →
      ∃ k : Nat, Client.read_file_loop peer u fuel1 (body ++ term) m =
        Client.read_file_loop peer u fuel2 term.tail (m + k)) ∧
    Client.read_file ⟨fun _ => [], fun _ => (0, 0)⟩ ⟨[], Double.nan, 0, 0⟩
        "# a,b\n \t \n\nx,1\n".toList =
      ⟨.ret (), ["intclient: syntax error on line 4\n".toList], []⟩ := by
  refine ⟨read_line_ignored, ?_, ?_, ?_, by decide⟩
  · intro peer u fuel f line rest eof m hg h
    exact read_file_loop_ignored peer u fuel f line rest eof m hg h
  · intro peer u body term m fuel1 fuel2 hb hterm hc hlen h1 h2
    exact comment_line_skipped peer u body term m fuel1 fuel2 hb hterm hc hlen h1 h2
  · intro peer u body term m fuel1 fuel2 hb hterm hws h1 h2
    exact blank_line_skipped peer u body.length body term m fuel1 fuel2 (le_refl _) hb hterm
      hws h1 h2

/-- C12 as stated fails: for the valid job `x*x,0,2,4,2` the server answers
the request `/integrate/x*x/0/2/4/2` with `200 OK` and no body: no result is
returned, and what the connection thread does is read the request, send that
response and, at the end of the stream, close. -/
theorem integrate_request_returns_no_result :
    Server.check_integrate (fun f => f == "x*x".toList) ⟨[], Double.nan, 0, 0⟩
        "/integrate/x*x/0/2/4/2".toList = true ∧
    (Server.respond (fun f => f == "x*x".toList) ⟨[], Double.nan, 0, 0⟩
        (fun _ => ⟨1, "GET".toList, "/integrate/x*x/0/2/4/2".toList⟩) []).body = none ∧
    Server.client_thread (fun f => f == "x*x".toList) ⟨[], Double.nan, 0, 0⟩
        (fun _ => ⟨1, "GET".toList, "/integrate/x*x/0/2/4/2".toList⟩)
        "GET /integrate/x*x/0/2/4/2 HTTP/1.1\r\n\n".toList =
      some [Server.Event.request "GET /integrate/x*x/0/2/4/2 HTTP/1.1\r\n\n".toList,
        Server.Event.response ⟨200, "OK".toList, none, none⟩, Server.Event.close] := by
  decide

/-- C12 as amended: the server's handling of an `/integrate` request only
validates the job. When `check_type` gives `INTEGRATE` and `check_integrate`
accepts the target, the response is `200 OK` with no headers and no body; no
response of the server has a body. So two accepted integration requests get
the same response, whatever divisor of the segments is chosen as threads: for
`x*x` over `[0, 2]` with 4 segments, the threads values 1, 2 and 4 are all
accepted. -/
theorem integrate_request_only_validated :
    (∀ (te_compile : List Char → Bool) (u : Uninit) (parse : List Char → Server.HttpRequest)
      (req : List Char),
      Server.check_type (parse req).numRead (parse req).method (parse req).address =
        Server.INTEGRATE →
      Server.check_integrate te_compile u (parse req).address = true →
      Server.respond te_compile u parse req = ⟨200, "OK".toList, none, none⟩) ∧
    (∀ (te_compile : List Char → Bool) (u : Uninit) (parse : List Char → Server.HttpRequest)
      (req : List Char),
      (Server.respond te_compile u parse req).body = none ∧
      (Server.respond te_compile u parse req).headers = none) ∧
    (∀ (te_compile : List Char → Bool) (u : Uninit) (parse : List Char → Server.HttpRequest)
      (req1 req2 : List Char),
      Server.check_type (parse req1).numRead (parse req1).method (parse req1).address =
        Server.INTEGRATE →
      Server.check_integrate te_compile u (parse req1).address = true →
      Server.check_type (parse req2).numRead (parse req2).method (parse req2).address =
        Server.INTEGRATE →
      Server.check_integrate te_compile u (parse req2).address = true →
      Server.respond te_compile u parse req1 = Server.respond te_compile u parse req2) ∧
    (Server.check_integrate (fun f => f == "x*x".toList) ⟨[], Double.nan, 0, 0⟩
        "/integrate/x*x/0/2/4/1".toList = true ∧
      Server.check_integrate (fun f => f == "x*x".toList) ⟨[], Double.nan, 0, 0⟩
        "/integrate/x*x/0/2/4/2".toList = true ∧
      Server.check_integrate (fun f => f == "x*x".toList) ⟨[], Double.nan, 0, 0⟩
        "/integrate/x*x/0/2/4/4".toList = true) := by
  have hvi : Server.INTEGRATE ≠ Server.VALIDATE := by decide
  have key : ∀ (te_compile : List Char → Bool) (u : Uninit)
      (parse : List Char → Server.HttpRequest) (req : List Char),
      Server.check_type (parse req).numRead (parse req).method (parse req).address =
        Server.INTEGRATE →
      Server.check_integrate te_compile u (parse req).address = true →
      Server.respond te_compile u parse req = ⟨200, "OK".toList, none, none⟩ := by
    intro te_compile u parse req ht hc
    unfold Server.respond
    simp only [ht, hc, if_neg hvi, if_true]
  refine ⟨key, ?_, ?_, by decide⟩
  · intro te_compile u parse req
    unfold Server.respond
    simp only
    split_ifs <;> exact ⟨rfl, rfl⟩
  · intro te_compile u parse req1 req2 h1 c1 h2 c2
    rw [key te_compile u parse req1 h1 c1, key te_compile u parse req2 h2 c2]

/-- C13 as stated fails: the function text `x/0` contains `/`, and with the
texts `1`, `4`, `2 ` (a blank after the digit) and `7` the target is
`/integrate/x/0/1/4/2 /7`; `sscanf` with `%s` stops at the blank, the text
`x/0/1/4/2` splits into five fields and `check_integrate` accepts it, so the
answer is `200 OK`. -/
theorem integrate_accepts_slash_before_blank :
    '/' ∈ "x/0".toList ∧
    integrate_target "x/0".toList "1".toList "4".toList "2 ".toList "7".toList =
      "/integrate/x/0/1/4/2 /7".toList ∧
    Server.check_integrate (fun f => f == "x".toList) ⟨[], Double.nan, 0, 0⟩
        (integrate_target "x/0".toList "1".toList "4".toList "2 ".toList "7".toList) = true ∧
    Server.respond (fun f => f == "x".toList) ⟨[], Double.nan, 0, 0⟩
        (fun _ => ⟨1, "GET".toList,
          integrate_target "x/0".toList "1".toList "4".toList "2 ".toList "7".toList⟩) [] =
      ⟨200, "OK".toList, none, none⟩ := by
  decide

/-- C13 as amended: when the function text contains `/` and the path
`f/lower/upper/segments/threads` holds no white space, the path splits at `/`
into more than five fields, `check_syntax` refuses them, `check_integrate`
rejects the target and a `GET` of it is answered `400 Bad Request`; the
`/validate/` route accepts the same function text whenever tinyexpr compiles
it. -/
theorem integrate_rejects_slash_in_function (te_compile : List Char → Bool) (u : Uninit)
    (f lower upper segments threads : List Char) (hf : '/' ∈ f)
    (hws : (integrate_path f lower upper segments threads).any isspace = false) :
    5 < (split_by_char (integrate_path f lower upper segments threads) '/').length ∧
    Server.check_syntax u (split_by_char (integrate_path f lower upper segments threads) '/')
      (split_by_char (integrate_path f lower upper segments threads) '/').length = false ∧
    Server.check_integrate te_compile u (integrate_target f lower upper segments threads)
      = false ∧
    (∀ (parse : List Char → Server.HttpRequest) (req : List Char),
      0 < (parse req).numRead → (parse req).method = "GET".toList →
      (parse req).address = integrate_target f lower upper segments threads →
      Server.respond te_compile u parse req = ⟨400, "Bad Request".toList, none, none⟩) ∧
    Server.check_func te_compile u ("/validate/".toList ++ f) = te_compile f := by
  have hcount := integrate_path_count f lower upper segments threads hf
  have hlen := split_by_char_length (integrate_path f lower upper segments threads) '/'
  have hne : integrate_path f lower upper segments threads ≠ [] := by
    intro h
    rw [h] at hcount
    simp at hcount
  have hfne : f ≠ [] := by
    intro h
    rw [h] at hf
    simp at hf
  have hfws : f.any isspace = false := by
    unfold integrate_path at hws
    rw [List.any_append] at hws
    simpa using (Bool.or_eq_false_iff.mp hws).1
  have hrej : Server.check_integrate te_compile u
      (integrate_target f lower upper segments threads) = false :=
    check_integrate_field_count te_compile u _ hne hws (by omega)
  refine ⟨by omega, server_check_syntax_ne_five u _ _ (by omega), hrej, ?_,
    check_func_validate te_compile u f hfne hfws⟩
  intro parse req hn hm ha
  have hvi : Server.INTEGRATE ≠ Server.VALIDATE := by decide
  unfold Server.respond
  simp only
  rw [hm, ha]
  unfold integrate_target at hrej ⊢
  rw [check_type_integrate _ _ hn hne hws, hrej]
  simp [hvi]

/-- C13 at the function `1/x` over `[0, 1]` with 4 segments and 2 threads. -/
theorem integrate_rejects_slash_in_function_witness :
    Server.check_integrate (fun f => f == "1/x".toList) ⟨[], Double.nan, 0, 0⟩
        "/integrate/1/x/0/1/4/2".toList = false ∧
    Server.check_func (fun f => f == "1/x".toList) ⟨[], Double.nan, 0, 0⟩
        "/validate/1/x".toList = true :=
  ⟨(integrate_rejects_slash_in_function (fun f => f == "1/x".toList) ⟨[], Double.nan, 0, 0⟩
      "1/x".toList "0".toList "1".toList "4".toList "2".toList (by decide) (by decide)).2.2.1,
    (integrate_rejects_slash_in_function (fun f => f == "1/x".toList) ⟨[], Double.nan, 0, 0⟩
      "1/x".toList "0".toList "1".toList "4".toList "2".toList (by decide) (by decide)).2.2.2.2⟩

/-- C14: in both versions of `check_validity` the remainder `seg % thr` is
only evaluated once `seg <= 0` and `thr <= 0` were found false, so it is
defined whenever it is evaluated (the divisor is positive, hence neither `0`
nor `-1`): for every `Fields` value the call returns, never evaluating an
undefined remainder, and returns what the model without the undefined case
returns. Fields with `thr = 0`, and with `seg = INT_MIN`, `thr = -1`, are
rejected before the remainder. -/
theorem check_validity_remainder_defined :
    (∀ (te_compile : List Char → Bool) (f : Fields) (num : Nat),
      Server.check_validity_strict te_compile f num =
        some (Server.check_validity te_compile f num)) ∧
    (∀ (peer : Client.Peer) (u : Uninit) (f : Fields) (num : Nat) (n : Int),
      Client.check_validity_strict peer u f num n =
        some (Client.check_validity peer u f num n)) ∧
    (∀ f : Fields, f.func.any isspace = false → Double.le f.up f.low = false →
      ¬ f.seg ≤ 0 → ¬ f.thr ≤ 0 →
      f.thr ≠ 0 ∧ ¬ (f.seg = INT_MIN ∧ f.thr = -1) ∧ c_rem f.seg f.thr = some (f.seg % f.thr)) ∧
    (∀ (te_compile : List Char → Bool) (func : List Char) (low up : Double) (seg : Int),
      Server.check_validity_strict te_compile ⟨func, low, up, seg, 0⟩ 5 = some false ∧
      Server.check_validity_strict te_compile ⟨func, low, up, INT_MIN, -1⟩ 5 = some false) ∧
    (∀ (peer : Client.Peer) (u : Uninit) (func : List Char) (low up : Double) (seg n : Int),
      (Client.check_validity_strict peer u ⟨func, low, up, seg, 0⟩ 5 n).isSome = true ∧
      (Client.check_validity_strict peer u ⟨func, low, up, INT_MIN, -1⟩ 5 n).isSome = true) := by
  have hs : ∀ (te_compile : List Char → Bool) (f : Fields) (num : Nat),
      Server.check_validity_strict te_compile f num =
        some (Server.check_validity te_compile f num) := by
    intro te_compile f num
    unfold Server.check_validity_strict Server.check_validity
    split_ifs with h1 h2 h3 h4 h5 h6 <;> try rfl
    all_goals
      have h3' : 0 < f.seg := by omega
      have h4' : 0 < f.thr := by omega
      simp_all [c_rem_pos _ _ h3' h4']
  have hc : ∀ (peer : Client.Peer) (u : Uninit) (f : Fields) (num : Nat) (n : Int),
      Client.check_validity_strict peer u f num n =
        some (Client.check_validity peer u f num n) := by
    intro peer u f num n
    unfold Client.check_validity_strict Client.check_validity
    split_ifs with h1 h2 h3 h4 h5 <;> try rfl
    all_goals
      have h3' : 0 < f.seg := by omega
      have h4' : 0 < f.thr := by omega
      simp only [c_rem_pos _ _ h3' h4'] at h5 ⊢
      simp_all
    all_goals
      cases (Client.check_func peer u f.func).out with
      | ret b => cases b <;> rfl
      | exit code => rfl
      | fault => rfl
  refine ⟨hs, hc, ?_, ?_, ?_⟩
  · intro f _ _ h3 h4
    have h3' : 0 < f.seg := by omega
    have h4' : 0 < f.thr := by omega
    refine ⟨by omega, ?_, c_rem_pos _ _ h3' h4'⟩
    intro h
    omega
  · intro te_compile func low up seg
    rw [hs, hs]
    constructor
    · simp only [Server.check_validity]
      split_ifs <;> first | rfl | omega
    · simp only [Server.check_validity]
      split_ifs <;> first | rfl | (simp [INT_MIN] at *)
  · intro peer u func low up seg n
    rw [hc, hc]
    exact ⟨rfl, rfl⟩
